import Mathlib

/-!
Shallow embedding of the Plane cache scripts
(`src/plugins/plane/scripts/{sync_cache,add_link,add_issue,discover}.py`).

Python JSON objects are modelled as insertion-ordered association lists
(`List (String × α)`): assignment to an existing key replaces the entry in
place, assignment to a fresh key appends — exactly the mutation semantics of
a Python `dict`.  JSON `null` is modelled by `Option.none`; where the code
distinguishes an absent key from a key holding `null` (via `dict.get` with a
default) the model uses a nested `Option`.  Uncaught Python exceptions (which
abort the interpreter) are modelled by `Except.error` carrying a `PyErr`.
-/


/-- `m.find?`-based lookup, the model of `dict.get(k)` / `dict[k]`. -/
def lookupSM {α : Type} (m : List (String × α)) (k : String) : Option α :=
  (m.find? (fun p => p.1 = k)).map (·.2)

/-- Model of `k in d` for a Python dict. -/
def containsSM {α : Type} (m : List (String × α)) (k : String) : Bool :=
  (lookupSM m k).isSome

/-- Model of `d[k] = v`: replace in place when the key exists, else append. -/
def upsertSM {α : Type} (m : List (String × α)) (k : String) (v : α) :
    List (String × α) :=
  if containsSM m k then m.map (fun p => if p.1 = k then (k, v) else p)
  else m ++ [(k, v)]

/-- Model of `d.pop(k)` (the removal part). -/
def eraseSM {α : Type} (m : List (String × α)) (k : String) :
    List (String × α) :=
  m.filter (fun p => ¬ p.1 = k)

/-- The `project` object as written by `sync_cache` (all four keys present,
any of them possibly `null`). -/
structure ProjRec where
  id : Option String
  identifier : Option String
  name : Option String
  workspace : Option String
deriving DecidableEq, Repr

/-- One entry of the persisted `issues` object.  Fields may be `null`
(e.g. records written by `add_issue.py` with optional flags omitted). -/
structure IssueRec where
  id : Option String
  name : Option String
  state : Option String
  state_id : Option String
  priority : Option String
  updated_at : Option String
deriving DecidableEq, Repr

/-- The persisted cache document.  `project = none` models the empty dict
`{}` of the skeleton; once synced it holds a full `ProjRec`. -/
structure Cache where
  project : Option ProjRec
  states : List (String × String)
  issues : List (String × IssueRec)
  linked : List (String × String)
  lastSync : Option String
deriving DecidableEq, Repr

/-- The fixed empty skeleton `{project:{}, states:{}, issues:{}, linked:{},
lastSync:null}`. -/
def emptyCache : Cache :=
  { project := none, states := [], issues := [], linked := [], lastSync := none }

/-- Uncaught Python exceptions: raising one aborts the host process. -/
inductive PyErr where
  | keyError (k : String)
  | jsonDecodeError
  | attributeError
deriving DecidableEq, Repr

/-- The persisted file as `load_cache` observes it: missing, present but not
valid JSON (`json.loads` raises), or present with a parsed document. -/
inductive FileState where
  | absent
  | invalid
  | valid (c : Cache)
deriving DecidableEq, Repr

/-- `load_cache` of `sync_cache.py` (identical in `add_link.py` and
`add_issue.py`): parsed document when the file is valid, the empty skeleton
when it is missing, and an uncaught `json.JSONDecodeError` otherwise. -/
def load_cache (f : FileState) : Except PyErr Cache :=
  match f with
  | .absent => .ok emptyCache
  | .invalid => .error .jsonDecodeError
  | .valid c => .ok c

/-- Snapshot `project` descriptor.  `workspace` keeps the outer `Option` for
key presence because the code reads it with `proj.get("workspace", default)`
whose default fires only when the key is absent, not when it is `null`. -/
structure SnapProject where
  id : Option String
  identifier : Option String
  name : Option String
  workspace : Option (Option String)
deriving DecidableEq, Repr

/-- Snapshot state descriptor: `state["id"]` and `state["name"]` are indexed
directly by the code, `group` is read with `state.get("group", "")`. -/
structure SnapState where
  id : String
  name : String
  group : Option String
deriving DecidableEq, Repr

/-- The issue's `state` field: an object with an (possibly null/absent) `id`,
or a scalar (where `scalar none` also covers an absent or null field). -/
inductive StateField where
  | obj (id : Option String)
  | scalar (v : Option String)
deriving DecidableEq, Repr

/-- The issue's `priority` field: object form (outer `Option` = presence of
its `id` key), scalar, or absent from the issue entirely. -/
inductive PriorityField where
  | obj (id : Option (Option String))
  | scalar (v : Option String)
  | absent
deriving DecidableEq, Repr

/-- Snapshot issue entry.  `id`, `sequence_id`, `name` are optional here so
that a malformed entry (the code indexes them, raising `KeyError`) is
representable. -/
structure SnapIssue where
  id : Option String
  sequence_id : Option Nat
  name : Option String
  state : StateField
  priority : PriorityField
  updated_at : Option String
deriving DecidableEq, Repr

/-- A remote snapshot: each top-level key optional (`"project" in data` …). -/
structure Snapshot where
  project : Option SnapProject
  states : Option (List SnapState)
  issues : Option (List SnapIssue)
deriving DecidableEq, Repr

/-- `map_state_group_to_status`: table lookup with pass-through default. -/
def map_state_group_to_status (group : String) : String :=
  match group with
  | "backlog" => "backlog"
  | "unstarted" => "pending"
  | "started" => "in_progress"
  | "completed" => "completed"
  | "cancelled" => "cancelled"
  | g => g

/-- `str.lower()` on one character (this code only lowercases ASCII state
and status names, where Python's `lower()` is the A–Z shift). -/
def pyLowerChar (c : Char) : Char :=
  if 'A' ≤ c ∧ c ≤ 'Z' then Char.ofNat (c.toNat + 32) else c

/-- `str.lower()`, computed on the underlying character list. -/
def pyLower (s : String) : String :=
  ⟨s.data.map pyLowerChar⟩

/-- `state["name"].lower().replace(" ", "_")` — the replacement pattern is
the single space character, so it is a character map. -/
def normName (name : String) : String :=
  ⟨(pyLower name).data.map (fun c => if c = ' ' then '_' else c)⟩

/-- Whether a state is one of the two always-recorded special names. -/
def isSpecialState (s : SnapState) : Bool :=
  normName s.name = "in_review" || normName s.name = "ready_to_merge"

/-- One iteration of the states loop of `sync_cache`. -/
def syncStateStep (m : List (String × String)) (s : SnapState) :
    List (String × String) :=
  let status_key := map_state_group_to_status (s.group.getD "")
  if isSpecialState s then upsertSM m (normName s.name) s.id
  else if containsSM m status_key then m
  else upsertSM m status_key s.id

/-- The states loop of `sync_cache` over the snapshot's states list. -/
def syncStates (states : List SnapState) (m : List (String × String)) :
    List (String × String) :=
  states.foldl syncStateStep m

/-- `states_by_id` as built by the loop (`states_by_id[state["id"]] = state`). -/
def statesById (states : List SnapState) : List (String × SnapState) :=
  states.foldl (fun acc s => upsertSM acc s.id s) []

/-- `get_state_name`: `states_by_id.get(state_id, {}).get("name", "Unknown")`;
a `None` state id is not a key of `states_by_id`. -/
def get_state_name (state_id : Option String) (byId : List (String × SnapState)) :
    String :=
  match state_id with
  | none => "Unknown"
  | some sid =>
    match lookupSM byId sid with
    | none => "Unknown"
    | some st => st.name

/-- Project update: overwrite all four fields, retaining the cached
workspace when the descriptor has no `workspace` key. -/
def updateProject (proj : SnapProject) (old : Option ProjRec) : ProjRec :=
  { id := proj.id, identifier := proj.identifier, name := proj.name,
    workspace :=
      match proj.workspace with
      | some v => v
      | none => old.bind (·.workspace) }

/-- `cache.get("project", {}).get("identifier", "PROJ")` interpolated into an
f-string: `"PROJ"` when the project dict is empty, the Python rendering
`"None"` when the key holds `null`, else the identifier itself. -/
def identifierString (proj : Option ProjRec) : String :=
  match proj with
  | none => "PROJ"
  | some p =>
    match p.identifier with
    | none => "None"
    | some s => s

/-- Extraction of the issue's state id (object's `id` or the scalar). -/
def stateIdOf (f : StateField) : Option String :=
  match f with
  | .obj i => i
  | .scalar v => v

/-- Extraction of the issue's priority
(`issue.get("priority", {}).get("id", "none") if isinstance(..., dict) else
issue.get("priority", "none")`). -/
def priorityOf (f : PriorityField) : Option String :=
  match f with
  | .obj none => some "none"
  | .obj (some v) => v
  | .scalar v => v
  | .absent => some "none"

/-- The `issue_data` record built by the issues loop (given the already
extracted mandatory `id` and `name`). -/
def mkIssueData (byId : List (String × SnapState)) (issue : SnapIssue)
    (iid nm : String) : IssueRec :=
  let state_id := stateIdOf issue.state
  let state_name := if byId.isEmpty then "Unknown" else get_state_name state_id byId
  { id := some iid, name := some nm, state := some state_name,
    state_id := state_id, priority := priorityOf issue.priority,
    updated_at := issue.updated_at }

/-- The derived issue key `f"{identifier}-{issue['sequence_id']}"` (only
meaningful for well-formed entries; the `getD` is never reached on them). -/
def entryKeyD (ident : String) (i : SnapIssue) : String :=
  ident ++ "-" ++ toString (i.sequence_id.getD 0)

/-- Loop accumulator: the issues map plus the `new` and `updated` key lists. -/
structure IssAcc where
  m : List (String × IssueRec)
  news : List String
  upds : List String
deriving DecidableEq, Repr

/-- One iteration of the issues loop.  The order of the raised `KeyError`s
follows the code: `sequence_id` is indexed first (key derivation), then `id`
and `name` (building `issue_data`). -/
def syncIssueStep (ident : String) (byId : List (String × SnapState))
    (acc : IssAcc) (issue : SnapIssue) : Except PyErr IssAcc :=
  match issue.sequence_id with
  | none => .error (.keyError "sequence_id")
  | some _ =>
    let issue_key := entryKeyD ident issue
    match issue.id with
    | none => .error (.keyError "id")
    | some iid =>
      match issue.name with
      | none => .error (.keyError "name")
      | some nm =>
        let d := mkIssueData byId issue iid nm
        match lookupSM acc.m issue_key with
        | none =>
          .ok ⟨upsertSM acc.m issue_key d, acc.news ++ [issue_key], acc.upds⟩
        | some old =>
          if old.updated_at ≠ d.updated_at then
            .ok ⟨upsertSM acc.m issue_key d, acc.news, acc.upds ++ [issue_key]⟩
          else
            .ok ⟨upsertSM acc.m issue_key d, acc.news, acc.upds⟩

/-- The issues loop; an exception aborts the remainder of the batch. -/
def syncIssuesLoop (ident : String) (byId : List (String × SnapState))
    (issues : List SnapIssue) (acc : IssAcc) : Except PyErr IssAcc :=
  match issues with
  | [] => .ok acc
  | i :: rest => do
    let acc' ← syncIssueStep ident byId acc i
    syncIssuesLoop ident byId rest acc'

/-- The summary returned by `sync_cache` (its `success` field is always
`true` on this path, so it is omitted). -/
structure SyncResult where
  issues_count : Nat
  states_count : Nat
  newKeys : List String
  updatedKeys : List String
deriving DecidableEq, Repr

/-- The project block of `sync_cache` (`if "project" in data: …`). -/
def syncProjPart (data : Snapshot) (cache : Cache) : Option ProjRec :=
  match data.project with
  | some proj => some (updateProject proj cache.project)
  | none => cache.project

/-- The `states_by_id` dict after the states block (`{}` when no list). -/
def syncById (data : Snapshot) : List (String × SnapState) :=
  match data.states with
  | some l => statesById l
  | none => []

/-- The `cache["states"]` mapping after the states block. -/
def syncStatesPart (data : Snapshot) (cache : Cache) : List (String × String) :=
  match data.states with
  | some l => syncStates l cache.states
  | none => cache.states

/-- `sync_cache(data, cache_path)` on an already loaded cache; `now` stands
for `datetime.now(timezone.utc)…`.  `.error` models the uncaught exception
(no save happens in that case — the save is the last statement).  An absent
`issues` key is rendered as the loop over the empty list, which performs no
iteration — the same semantics as skipping the block. -/
def sync_cache (data : Snapshot) (now : String) (cache : Cache) :
    Except PyErr (Cache × SyncResult) :=
  let proj' := syncProjPart data cache
  let states' := syncStatesPart data cache
  match syncIssuesLoop (identifierString proj') (syncById data)
      (data.issues.getD []) ⟨cache.issues, [], []⟩ with
  | .error e => .error e
  | .ok acc =>
    .ok ({ project := proj', states := states', issues := acc.m,
           linked := cache.linked, lastSync := some now },
         { issues_count := acc.m.length, states_count := states'.length,
           newKeys := acc.news, updatedKeys := acc.upds })

/-- `touch_cache`: refresh only the timestamp. -/
def touch_cache (now : String) (c : Cache) : Cache :=
  { c with lastSync := some now }

/-- Whole-process run of `sync_cache.py` with data: load, sync, save.  The
second component is the persisted file when the process ends (unchanged when
an exception aborted the run before the save). -/
def run_sync (f : FileState) (data : Snapshot) (now : String) :
    Except PyErr SyncResult × FileState :=
  match load_cache f with
  | .error e => (.error e, f)
  | .ok c =>
    match sync_cache data now c with
    | .error e => (.error e, f)
    | .ok (c', r) => (.ok r, .valid c')

/-- Result of `add_link`: the four exits of the function, with the payloads
that appear in the returned JSON. -/
inductive LinkRes where
  | notFound
  | conflictIssue (existing : String)
  | conflictTask (otherKey : String)
  | linkedOk (issue_name : Option String)
deriving DecidableEq, Repr

/-- Tail of `add_link` after the issue-side conflict check: the scan of all
existing links for the task side, then the write and save. -/
def addLinkScan (c : Cache) (issue_key task_file : String) :
    LinkRes × Option Cache :=
  match c.linked.find? (fun p => p.2 = task_file && ¬ p.1 = issue_key) with
  | some p => (.conflictTask p.1, none)
  | none =>
    let c' := { c with linked := upsertSM c.linked issue_key task_file }
    (.linkedOk ((lookupSM c.issues issue_key).bind (·.name)), some c')

/-- `add_link(cache_path, issue_key, task_file)` on a loaded cache.  The
second component is the cache passed to `save_cache`, `none` when the
function returns before saving.  The `existing and existing != task_file`
test keeps Python truthiness: an empty-string link does not trigger the
conflict. -/
def add_link (c : Cache) (issue_key task_file : String) :
    LinkRes × Option Cache :=
  if ¬ containsSM c.issues issue_key then (.notFound, none)
  else
    match lookupSM c.linked issue_key with
    | some existing =>
      if existing ≠ "" && existing ≠ task_file then (.conflictIssue existing, none)
      else addLinkScan c issue_key task_file
    | none => addLinkScan c issue_key task_file

/-- Result of `remove_link`. -/
inductive UnlinkRes where
  | notLinked
  | unlinkedOk (was_linked_to : String)
deriving DecidableEq, Repr

/-- `remove_link(cache_path, issue_key)` on a loaded cache. -/
def remove_link (c : Cache) (issue_key : String) : UnlinkRes × Option Cache :=
  match lookupSM c.linked issue_key with
  | none => (.notLinked, none)
  | some t => (.unlinkedOk t, some { c with linked := eraseSM c.linked issue_key })

/-- The issue data handed to `add_issue` (from `--data` JSON or the flags):
`id`…`state_id` read with single-default `get`, while `priority` and
`updated_at` distinguish an absent key from a `null` one. -/
structure IssueInput where
  id : Option String
  name : Option String
  state : Option String
  state_id : Option String
  priority : Option (Option String)
  updated_at : Option (Option String)
deriving DecidableEq, Repr

/-- Result of the `add_issue.py` entry point. -/
inductive IssueMainRes where
  | validationError
  | issueOk (action : String)
deriving DecidableEq, Repr

/-- Python truthiness of an optional string (`not issue_data.get(...)`). -/
def truthyOpt (o : Option String) : Bool :=
  match o with
  | some s => s ≠ ""
  | none => false

/-- The `add_issue` function body: classify added/updated, then upsert. -/
def add_issue (c : Cache) (key : String) (d : IssueInput) (now : String) :
    IssueMainRes × Option Cache :=
  let action := if containsSM c.issues key then "updated" else "added"
  let entry : IssueRec :=
    { id := d.id, name := d.name, state := d.state, state_id := d.state_id,
      priority := (d.priority.getD (some "none")),
      updated_at := (d.updated_at.getD (some now)) }
  (.issueOk action, some { c with issues := upsertSM c.issues key entry })

/-- The `main` of `add_issue.py`: reject a missing or empty `id`/`name`
before touching the cache, else run `add_issue`. -/
def add_issue_main (c : Cache) (key : String) (d : IssueInput) (now : String) :
    IssueMainRes × Option Cache :=
  if ¬ truthyOpt d.id || ¬ truthyOpt d.name then (.validationError, none)
  else add_issue c key d now

/-- One CLI-level mutating operation against the cache file.  `link`
reaches `add_link` only with a truthy `--task` (the `elif args.task:`
dispatch of `add_link.py`). -/
inductive Op where
  | syncOp (data : Snapshot) (now : String)
  | touchOp (now : String)
  | upsertIssue (key : String) (d : IssueInput) (now : String)
  | link (issue task : String)
  | unlink (issue : String)

/-- Resulting cache state of one operation: on any failure (error result or
uncaught exception) no save happens and the cache is unchanged. -/
def applyOp (c : Cache) (op : Op) : Cache :=
  match op with
  | .syncOp data now =>
    match sync_cache data now c with
    | .ok (c', _) => c'
    | .error _ => c
  | .touchOp now => touch_cache now c
  | .upsertIssue key d now =>
    match (add_issue_main c key d now).2 with
    | some c' => c'
    | none => c
  | .link issue task =>
    if task ≠ "" then
      match (add_link c issue task).2 with
      | some c' => c'
      | none => c
    else c
  | .unlink issue =>
    match (remove_link c issue).2 with
    | some c' => c'
    | none => c

/-- Cache states reachable from the empty skeleton by the five operations. -/
inductive Reachable : Cache → Prop where
  | empty : Reachable emptyCache
  | step (c : Cache) (op : Op) : Reachable c → Reachable (applyOp c op)

/-- A file of the tasks directory as the external parsing collaborator
exposes it: its name and the result of `parse_task_frontmatter`
(`none` when there is no frontmatter block; `some []` when the block parses
to an empty mapping — both are falsy in Python). -/
structure TaskFile where
  name : String
  frontmatter : Option (List (String × String))
deriving DecidableEq, Repr

/-- Whether a file name matches the `*.md` glob (suffix check on the
character list). -/
def endsWithMd (name : String) : Bool :=
  decide (name.data.reverse.take 3 = ['d', 'm', '.'])

/-- `get_task_files`: the `*.md` glob over the directory listing. -/
def get_task_files (dir : List TaskFile) : List TaskFile :=
  dir.filter (fun t => endsWithMd t.name)

/-- `map_task_status_to_plane_state`: table on the lowercased status with
pass-through of the original (uncased) value. -/
def map_task_status_to_plane_state (status : String) : String :=
  match pyLower status with
  | "backlog" => "Backlog"
  | "pending" => "Todo"
  | "in_progress" => "In Progress"
  | "in-progress" => "In Progress"
  | "completed" => "Done"
  | "cancelled" => "Cancelled"
  | _ => status

/-- An entry of `unlinked_tasks`: either tagged with the dangling
`plane_issue` claim or bare. -/
inductive UnlinkedTask where
  | withClaim (file : String) (claims_issue : String) (status : Option String)
  | bare (file : String) (status : Option String)
deriving DecidableEq, Repr

/-- The body of the unlinked-tasks loop for one task file already known to
be absent from the link values: `None` when the file is skipped.  Mirrors
`if frontmatter:` (falsy on `None` and on the empty mapping) and the
truthiness of `plane_issue`. -/
def unlinkedTaskEntry (linked : List (String × String)) (t : TaskFile) :
    Option UnlinkedTask :=
  match t.frontmatter with
  | none => none
  | some [] => none
  | some fm =>
    match lookupSM fm "plane_issue" with
    | some pi =>
      if pi ≠ "" && ¬ containsSM linked pi then
        some (.withClaim t.name pi (lookupSM fm "status"))
      else if pi = "" then some (.bare t.name (lookupSM fm "status"))
      else none
    | none => some (.bare t.name (lookupSM fm "status"))

/-- A reported status mismatch. -/
structure Mismatch where
  issue : String
  task : String
  task_status : String
  plane_state : String
  expected_state : String
deriving DecidableEq, Repr

/-- The status check for one link.  `.ok none` covers the silent skips
(missing file, falsy frontmatter, matching states).  A linked issue whose
stored `state` is `null` makes `actual_state.lower()` raise
`AttributeError` on Python's `None`. -/
def mismatchFor (c : Cache) (dir : List TaskFile) (p : String × String) :
    Except PyErr (Option Mismatch) :=
  let issue_key := p.1
  let task_file := p.2
  match dir.find? (fun t => t.name = task_file) with
  | none => .ok none
  | some t =>
    match t.frontmatter with
    | none => .ok none
    | some [] => .ok none
    | some fm =>
      let task_status := (lookupSM fm "status").getD ""
      let expected_state := map_task_status_to_plane_state task_status
      match lookupSM c.issues issue_key with
      | some i =>
        match i.state with
        | none => .error .attributeError
        | some actual_state =>
          if pyLower expected_state ≠ pyLower actual_state then
            .ok (some ⟨issue_key, task_file, task_status, actual_state, expected_state⟩)
          else .ok none
      | none =>
        if pyLower expected_state ≠ "" then
          .ok (some ⟨issue_key, task_file, task_status, "", expected_state⟩)
        else .ok none

/-- The status-mismatch loop over all links, in mapping order. -/
def collectMismatches (c : Cache) (dir : List TaskFile) :
    List (String × String) → Except PyErr (List Mismatch)
  | [] => .ok []
  | p :: rest => do
    let o ← mismatchFor c dir p
    let r ← collectMismatches c dir rest
    pure (match o with | some m => m :: r | none => r)

/-- The aggregate counts of the report. -/
structure Summary where
  unlinked_issues : Nat
  unlinked_tasks : Nat
  mismatches : Nat
  total_issues : Nat
  total_linked : Nat
deriving DecidableEq, Repr

/-- The report of `discover`. -/
structure Report where
  unlinked_issues : List (String × (Option String × Option String))
  unlinked_tasks : List UnlinkedTask
  status_mismatches : List Mismatch
  summary : Summary
deriving DecidableEq, Repr

/-- `discover(cache_path, tasks_dir, check_status)` on a loaded cache and
directory listing. -/
def discover (c : Cache) (dir : List TaskFile) (check_status : Bool) :
    Except PyErr Report := do
  let ui := c.issues.filterMap (fun p =>
    if containsSM c.linked p.1 then none
    else some (p.1, ((p.2).name, (p.2).state)))
  let ut := (get_task_files dir).filterMap (fun t =>
    if c.linked.any (fun p => p.2 = t.name) then none
    else unlinkedTaskEntry c.linked t)
  let sm ← if check_status then collectMismatches c dir c.linked else pure []
  pure { unlinked_issues := ui, unlinked_tasks := ut, status_mismatches := sm,
         summary := ⟨ui.length, ut.length, sm.length,
                     c.issues.length, c.linked.length⟩ }

/-- Whole-process run of `add_link.py` with `--task`: load, link, save on
success only. -/
def run_add_link (f : FileState) (issue task : String) :
    Except PyErr LinkRes × FileState :=
  match load_cache f with
  | .error e => (.error e, f)
  | .ok c =>
    let r := add_link c issue task
    (.ok r.1, match r.2 with | some c' => .valid c' | none => f)

/-- Whole-process run of `add_link.py` with `--remove`. -/
def run_remove_link (f : FileState) (issue : String) :
    Except PyErr UnlinkRes × FileState :=
  match load_cache f with
  | .error e => (.error e, f)
  | .ok c =>
    let r := remove_link c issue
    (.ok r.1, match r.2 with | some c' => .valid c' | none => f)

/-- Whole-process run of `add_issue.py` (the `--data`/flags path). -/
def run_add_issue (f : FileState) (key : String) (d : IssueInput)
    (now : String) : Except PyErr IssueMainRes × FileState :=
  match load_cache f with
  | .error e => (.error e, f)
  | .ok c =>
    let r := add_issue_main c key d now
    (.ok r.1, match r.2 with | some c' => .valid c' | none => f)

/-- Both-directions injectivity of the `linked` mapping: no key occurs
twice (one issue key maps to at most one task file) and no value occurs
twice (no task file is claimed by two distinct issue keys). -/
def linkedBijective (m : List (String × String)) : Prop :=
  m.Pairwise (fun p q => p.1 ≠ q.1 ∧ p.2 ≠ q.2)

/-- The full maintained invariant: bijectivity plus non-empty task-file
names (the CLI dispatch of `add_link.py` only calls `add_link` with a
truthy `--task`). -/
def linkedSane (m : List (String × String)) : Prop :=
  linkedBijective m ∧ ∀ p ∈ m, p.2 ≠ ""

/-- The last state of the list whose special normalized name is `k` — the
one whose id the states loop leaves recorded under `k` (specials always
overwrite). -/
def lastSpecialId (l : List SnapState) (k : String) : Option String :=
  (l.reverse.find? (fun s => isSpecialState s && normName s.name = k)).map (·.id)

/-- The first non-special state of the list whose canonical status key is
`k` — the one that fills an empty canonical slot (first-seen-wins). -/
def firstCanonId (l : List SnapState) (k : String) : Option String :=
  (l.find? (fun s =>
    !isSpecialState s && map_state_group_to_status (s.group.getD "") = k)).map (·.id)

/-- The last snapshot entry of the list whose derived key is `k` — the one
whose record the issues loop leaves stored under `k` (unconditional
upsert, later entries win). -/
def lastWriteD (ident : String) (byId : List (String × SnapState))
    (l : List SnapIssue) (k : String) : Option IssueRec :=
  (l.reverse.find? (fun i => entryKeyD ident i = k)).map
    (fun i => mkIssueData byId i (i.id.getD "") (i.name.getD ""))

/-- The one-entry snapshot of the C7 witness scenario. -/
def c7wSnap : Snapshot :=
  ⟨none, none, some [⟨some "u", some 5, some "N", StateField.scalar none,
    PriorityField.absent, some "t1"⟩]⟩

/-- The single issue entry of `c7wSnap`. -/
def c7wIssue : SnapIssue :=
  ⟨some "u", some 5, some "N", StateField.scalar none,
    PriorityField.absent, some "t1"⟩

/-- The starting cache of the C7 witness scenario: "PROJ-5" already present
with an older timestamp. -/
def c7wOld : Cache :=
  ⟨none, [], [("PROJ-5", ⟨some "u0", some "N0", none, none, some "none",
    some "t0"⟩)], [], none⟩

/-- The cache after syncing `c7wSnap` onto `c7wOld`. -/
def c7wNew : Cache :=
  ⟨none, [], [("PROJ-5", ⟨some "u", some "N", some "Unknown", none,
    some "none", some "t1"⟩)], [], some "T9"⟩

/-- The sync summary of the C7 witness scenario. -/
def c7wRes : SyncResult := ⟨1, 0, [], ["PROJ-5"]⟩


theorem lookupSM_cons {α : Type} (p : String × α) (m : List (String × α))
    (k : String) :
    lookupSM (p :: m) k = if p.1 = k then some p.2 else lookupSM m k := by
  unfold lookupSM
  rw [List.find?_cons]
  by_cases h : p.1 = k <;> simp [h]

theorem lookupSM_append {α : Type} (m l : List (String × α)) (k : String) :
    lookupSM (m ++ l) k =
      match lookupSM m k with
      | some v => some v
      | none => lookupSM l k := by
  induction m with
  | nil => simp [lookupSM]
  | cons p m ih =>
    rw [List.cons_append, lookupSM_cons, lookupSM_cons]
    by_cases h : p.1 = k <;> simp [h, ih]

theorem lookupSM_replace_self {α : Type} (m : List (String × α)) (k : String)
    (v : α) :
    lookupSM (m.map (fun p => if p.1 = k then (k, v) else p)) k =
      (lookupSM m k).map (fun _ => v) := by
  induction m with
  | nil => simp [lookupSM]
  | cons p m ih =>
    by_cases h : p.1 = k
    · simp only [List.map_cons, h, if_pos, lookupSM_cons]
      simp [h]
    · simp only [List.map_cons, h, if_neg, not_false_iff, lookupSM_cons]
      simp [h, ih]

theorem lookupSM_replace_ne {α : Type} (m : List (String × α)) (k k' : String)
    (v : α) (hne : k' ≠ k) :
    lookupSM (m.map (fun p => if p.1 = k then (k, v) else p)) k' =
      lookupSM m k' := by
  induction m with
  | nil => simp [lookupSM]
  | cons p m ih =>
    by_cases h : p.1 = k
    · simp only [List.map_cons, h, if_pos, lookupSM_cons]
      have : ¬ (k = k') := fun hh => hne hh.symm
      simp [this, h, ih, lookupSM_cons]
    · simp only [List.map_cons, h, if_neg, not_false_iff, lookupSM_cons]
      rw [ih]

theorem lookupSM_upsert_self {α : Type} (m : List (String × α)) (k : String)
    (v : α) : lookupSM (upsertSM m k v) k = some v := by
  unfold upsertSM
  by_cases h : containsSM m k = true
  · rw [if_pos h, lookupSM_replace_self]
    unfold containsSM at h
    cases hm : lookupSM m k with
    | none => rw [hm] at h; simp at h
    | some w => simp
  · rw [if_neg h, lookupSM_append]
    unfold containsSM at h
    cases hm : lookupSM m k with
    | none => simp [lookupSM]
    | some w => rw [hm] at h; simp at h

theorem lookupSM_upsert_ne {α : Type} (m : List (String × α)) (k k' : String)
    (v : α) (hne : k' ≠ k) :
    lookupSM (upsertSM m k v) k' = lookupSM m k' := by
  unfold upsertSM
  by_cases h : containsSM m k = true
  · rw [if_pos h, lookupSM_replace_ne _ _ _ _ hne]
  · rw [if_neg h, lookupSM_append]
    cases hm : lookupSM m k' with
    | none =>
      have : ¬ (k = k') := fun hh => hne hh.symm
      simp [lookupSM, this]
    | some w => simp

theorem lookupSM_upsert {α : Type} (m : List (String × α)) (k k' : String)
    (v : α) :
    lookupSM (upsertSM m k v) k' = if k' = k then some v else lookupSM m k' := by
  by_cases h : k' = k
  · subst h; rw [if_pos rfl, lookupSM_upsert_self]
  · rw [if_neg h, lookupSM_upsert_ne _ _ _ _ h]

theorem containsSM_upsert {α : Type} (m : List (String × α)) (k k' : String)
    (v : α) :
    containsSM (upsertSM m k v) k' = (k' = k || containsSM m k') := by
  unfold containsSM
  rw [lookupSM_upsert]
  by_cases h : k' = k <;> simp [h]

theorem add_link_save_or_ok (c : Cache) (i t : String) :
    (add_link c i t).2 = none ∨ ∃ nm, (add_link c i t).1 = LinkRes.linkedOk nm := by
  unfold add_link addLinkScan
  by_cases h1 : containsSM c.issues i = true
  · simp only [h1, not_true, if_neg, not_false_iff]
    cases hl : lookupSM c.linked i with
    | none =>
      cases hf : c.linked.find? (fun p => p.2 = t && ¬ p.1 = i) with
      | none => right; exact ⟨_, rfl⟩
      | some p => left; rfl
    | some e =>
      by_cases h2 : (e ≠ "" && e ≠ t) = true
      · simp only [h2, if_pos]; left; trivial
      · simp only [h2, if_neg, not_false_iff]
        cases hf : c.linked.find? (fun p => p.2 = t && ¬ p.1 = i) with
        | none => right; exact ⟨_, rfl⟩
        | some p => left; rfl
  · simp only [h1, not_false_iff, if_pos]
    left; rfl

theorem remove_link_save (c : Cache) (i : String) :
    (remove_link c i).2 = none ↔ (remove_link c i).1 = UnlinkRes.notLinked := by
  unfold remove_link
  cases hl : lookupSM c.linked i <;> simp

theorem add_issue_main_save (c : Cache) (key : String) (d : IssueInput)
    (now : String) :
    (add_issue_main c key d now).1 = IssueMainRes.validationError →
      (add_issue_main c key d now).2 = none := by
  unfold add_issue_main add_issue
  by_cases h : truthyOpt d.id = false ∨ truthyOpt d.name = false
  · simp [h]
  · simp [h]

theorem syncIssueStep_eq_err_seq (ident : String)
    (byId : List (String × SnapState)) (acc : IssAcc) (i : SnapIssue)
    (hs : i.sequence_id = none) :
    syncIssueStep ident byId acc i = .error (.keyError "sequence_id") := by
  unfold syncIssueStep
  rw [hs]

theorem syncIssueStep_eq_err_id (ident : String)
    (byId : List (String × SnapState)) (acc : IssAcc) (i : SnapIssue)
    (s : Nat) (hs : i.sequence_id = some s) (ha : i.id = none) :
    syncIssueStep ident byId acc i = .error (.keyError "id") := by
  unfold syncIssueStep
  rw [hs, ha]

theorem syncIssueStep_eq_err_name (ident : String)
    (byId : List (String × SnapState)) (acc : IssAcc) (i : SnapIssue)
    (s : Nat) (a : String) (hs : i.sequence_id = some s) (ha : i.id = some a)
    (hn : i.name = none) :
    syncIssueStep ident byId acc i = .error (.keyError "name") := by
  unfold syncIssueStep
  rw [hs, ha, hn]

theorem syncIssueStep_eq_ok (ident : String)
    (byId : List (String × SnapState)) (acc : IssAcc) (i : SnapIssue)
    (s : Nat) (a n : String) (hs : i.sequence_id = some s) (ha : i.id = some a)
    (hn : i.name = some n) :
    syncIssueStep ident byId acc i =
      (match lookupSM acc.m (entryKeyD ident i) with
       | none => .ok ⟨upsertSM acc.m (entryKeyD ident i) (mkIssueData byId i a n),
           acc.news ++ [entryKeyD ident i], acc.upds⟩
       | some old =>
         if old.updated_at ≠ (mkIssueData byId i a n).updated_at then
           .ok ⟨upsertSM acc.m (entryKeyD ident i) (mkIssueData byId i a n),
             acc.news, acc.upds ++ [entryKeyD ident i]⟩
         else
           .ok ⟨upsertSM acc.m (entryKeyD ident i) (mkIssueData byId i a n),
             acc.news, acc.upds⟩) := by
  unfold syncIssueStep
  rw [hs, ha, hn]

theorem syncIssueStep_error (ident : String) (byId : List (String × SnapState))
    (acc : IssAcc) (i : SnapIssue)
    (h : i.sequence_id = none ∨ i.id = none ∨ i.name = none) :
    ∃ e, syncIssueStep ident byId acc i = .error e := by
  cases hs : i.sequence_id with
  | none => exact ⟨_, syncIssueStep_eq_err_seq ident byId acc i hs⟩
  | some s =>
    cases ha : i.id with
    | none => exact ⟨_, syncIssueStep_eq_err_id ident byId acc i s hs ha⟩
    | some a =>
      cases hn : i.name with
      | none => exact ⟨_, syncIssueStep_eq_err_name ident byId acc i s a hs ha hn⟩
      | some n => simp [hs, ha, hn] at h

theorem syncIssueStep_ok_of_wf (ident : String) (byId : List (String × SnapState))
    (acc : IssAcc) (i : SnapIssue)
    (h : ¬(i.sequence_id = none ∨ i.id = none ∨ i.name = none)) :
    ∃ acc', syncIssueStep ident byId acc i = .ok acc' := by
  push_neg at h
  obtain ⟨h1, h2, h3⟩ := h
  cases hs : i.sequence_id with
  | none => exact absurd hs h1
  | some s =>
    cases ha : i.id with
    | none => exact absurd ha h2
    | some a =>
      cases hn : i.name with
      | none => exact absurd hn h3
      | some n =>
        rw [syncIssueStep_eq_ok ident byId acc i s a n hs ha hn]
        cases hl : lookupSM acc.m (entryKeyD ident i) with
        | none => exact ⟨_, rfl⟩
        | some old =>
          dsimp only
          by_cases hu : old.updated_at ≠ (mkIssueData byId i a n).updated_at
          · rw [if_pos hu]; exact ⟨_, rfl⟩
          · rw [if_neg hu]; exact ⟨_, rfl⟩

theorem syncIssuesLoop_error (ident : String) (byId : List (String × SnapState))
    (l : List SnapIssue) (acc : IssAcc)
    (h : ∃ i ∈ l, i.sequence_id = none ∨ i.id = none ∨ i.name = none) :
    ∃ e, syncIssuesLoop ident byId l acc = .error e := by
  induction l generalizing acc with
  | nil => simp at h
  | cons i rest ih =>
    by_cases hw : i.sequence_id = none ∨ i.id = none ∨ i.name = none
    · obtain ⟨e, he⟩ := syncIssueStep_error ident byId acc i hw
      refine ⟨e, ?_⟩
      unfold syncIssuesLoop
      rw [he]
      rfl
    · obtain ⟨acc', ha⟩ := syncIssueStep_ok_of_wf ident byId acc i hw
      have h' : ∃ j ∈ rest, j.sequence_id = none ∨ j.id = none ∨ j.name = none := by
        rcases h with ⟨j, hj, hmal⟩
        rcases List.mem_cons.mp hj with rfl | hj'
        · exact absurd hmal hw
        · exact ⟨j, hj', hmal⟩
      obtain ⟨e, he⟩ := ih acc' h'
      refine ⟨e, ?_⟩
      unfold syncIssuesLoop
      rw [ha]
      exact he

theorem sync_cache_error_of_malformed (S : Snapshot) (t : String) (c : Cache)
    (l : List SnapIssue) (hl : S.issues = some l)
    (hbad : ∃ i ∈ l, i.sequence_id = none ∨ i.id = none ∨ i.name = none) :
    ∃ e, sync_cache S t c = .error e := by
  obtain ⟨e, he⟩ := syncIssuesLoop_error
    (identifierString (syncProjPart S c)) (syncById S) l ⟨c.issues, [], []⟩ hbad
  refine ⟨e, ?_⟩
  unfold sync_cache
  rw [hl]
  simp only [Option.getD, he]

/-- C4 counterexample: on the snapshot whose single issue entry lacks its
sequence number, `sync` does not return a result-or-error value to the
caller: the `KeyError` escapes `sync_cache` uncaught — the run ends in
`Except.error`, i.e. the host process aborts with a traceback — and no
`SnapshotValidationError` exists anywhere in the code.  This refutes the
claim's "returned as a result-or-error to the caller without aborting the
host process". -/
theorem C4_counterexample :
    run_sync (FileState.valid emptyCache)
        ⟨none, none, some [⟨some "a", none, some "n", StateField.scalar none,
          PriorityField.absent, none⟩]⟩ "T0" =
      (Except.error (PyErr.keyError "sequence_id"), FileState.valid emptyCache) := by
  rfl

/-- C4 (amended): a malformed snapshot — an issue entry missing its id,
name, or sequence number — makes `sync` raise an uncaught `KeyError` which
aborts the whole batch on the first bad entry: no result value is produced
and the persisted cache file is left unchanged. -/
theorem C4_sync_malformed_aborts_batch (f : FileState) (S : Snapshot)
    (t : String) (l : List SnapIssue) (hl : S.issues = some l)
    (hbad : ∃ i ∈ l, i.sequence_id = none ∨ i.id = none ∨ i.name = none) :
    (∃ e, (run_sync f S t).1 = Except.error e) ∧ (run_sync f S t).2 = f := by
  cases f with
  | invalid => exact ⟨⟨.jsonDecodeError, rfl⟩, rfl⟩
  | absent =>
    obtain ⟨e, he⟩ := sync_cache_error_of_malformed S t emptyCache l hl hbad
    unfold run_sync
    simp only [load_cache, he]
    exact ⟨⟨e, rfl⟩, trivial⟩
  | valid c =>
    obtain ⟨e, he⟩ := sync_cache_error_of_malformed S t c l hl hbad
    unfold run_sync
    simp only [load_cache, he]
    exact ⟨⟨e, rfl⟩, trivial⟩

/-- C4 witness: the amended theorem applied to a concrete malformed
snapshot (an issue entry with no name) against a missing cache file. -/
theorem C4_witness :
    (∃ e, (run_sync FileState.absent
        ⟨none, none, some [⟨some "b", some 3, none, StateField.scalar none,
          PriorityField.absent, some "2024"⟩]⟩ "T1").1 = Except.error e) ∧
      (run_sync FileState.absent
        ⟨none, none, some [⟨some "b", some 3, none, StateField.scalar none,
          PriorityField.absent, some "2024"⟩]⟩ "T1").2 = FileState.absent :=
  C4_sync_malformed_aborts_batch FileState.absent _ "T1" _ rfl (by decide)

/-- C8 counterexample: when the cache file exists but holds invalid
content, no `CorruptCacheError` result is returned to the caller — the
`json.loads` exception escapes `load_cache` uncaught and the run ends in
`Except.error` (the process aborts with a traceback).  This refutes the
claim's "fails with CorruptCacheError, reported as a result-or-error rather
than aborting the process". -/
theorem C8_counterexample :
    run_sync FileState.invalid ⟨none, none, none⟩ "T2" =
      (Except.error PyErr.jsonDecodeError, FileState.invalid) := by
  rfl

/-- C8 (amended): `load` returns the parsed persisted document when the
path exists with valid content, the fixed empty skeleton when the path does
not exist, and raises an uncaught `json.JSONDecodeError` when the path
exists but its content is not valid — the surrounding run then aborts with
that error, leaving the persisted file unchanged, instead of reporting a
`CorruptCacheError` result. -/
theorem C8_load_cache_behaviour :
    (∀ c, load_cache (FileState.valid c) = Except.ok c) ∧
      load_cache FileState.absent = Except.ok emptyCache ∧
      load_cache FileState.invalid = Except.error PyErr.jsonDecodeError ∧
      (∀ S t, run_sync FileState.invalid S t =
        (Except.error PyErr.jsonDecodeError, FileState.invalid)) :=
  ⟨fun _ => rfl, rfl, rfl, fun _ _ => rfl⟩

/-- C8 witness: the amended theorem applied at a concrete parsed document
and a concrete snapshot. -/
theorem C8_witness :
    load_cache (FileState.valid emptyCache) = Except.ok emptyCache ∧
      run_sync FileState.invalid ⟨none, none, none⟩ "T3" =
        (Except.error PyErr.jsonDecodeError, FileState.invalid) :=
  ⟨C8_load_cache_behaviour.1 emptyCache,
   C8_load_cache_behaviour.2.2.2 ⟨none, none, none⟩ "T3"⟩

theorem add_link_fail_none (c : Cache) (i t : String)
    (h : (add_link c i t).1 = LinkRes.notFound ∨
      (∃ e, (add_link c i t).1 = LinkRes.conflictIssue e) ∨
      (∃ k, (add_link c i t).1 = LinkRes.conflictTask k)) :
    (add_link c i t).2 = none := by
  rcases add_link_save_or_ok c i t with h2 | ⟨nm, h2⟩
  · exact h2
  · rcases h with h | ⟨e, h⟩ | ⟨k, h⟩ <;> rw [h2] at h <;> cases h

/-- C10: error atomicity of link, unlink and the issue-upsert entry point:
whenever `add_link` returns its not-found or conflict result, `remove_link`
returns its not-linked result, or `add_issue.py`'s main rejects a missing or
empty id or name, no save is performed and the persisted cache file is left
exactly as it was. -/
theorem C10_error_atomicity :
    (∀ f i t, ((run_add_link f i t).1 = Except.ok LinkRes.notFound ∨
        (∃ e, (run_add_link f i t).1 = Except.ok (LinkRes.conflictIssue e)) ∨
        (∃ k, (run_add_link f i t).1 = Except.ok (LinkRes.conflictTask k))) →
      (run_add_link f i t).2 = f) ∧
    (∀ f i, (run_remove_link f i).1 = Except.ok UnlinkRes.notLinked →
      (run_remove_link f i).2 = f) ∧
    (∀ f k d n, (run_add_issue f k d n).1 = Except.ok IssueMainRes.validationError →
      (run_add_issue f k d n).2 = f) := by
  refine ⟨?_, ?_, ?_⟩
  · intro f i t h
    have key : ∀ c, load_cache f = Except.ok c →
        ((add_link c i t).1 = LinkRes.notFound ∨
          (∃ e, (add_link c i t).1 = LinkRes.conflictIssue e) ∨
          (∃ k, (add_link c i t).1 = LinkRes.conflictTask k)) →
        (run_add_link f i t).2 = f := by
      intro c hc hfail
      unfold run_add_link
      rw [hc]
      dsimp only
      rw [add_link_fail_none c i t hfail]
    cases f with
    | invalid => rfl
    | absent =>
      refine key emptyCache rfl ?_
      unfold run_add_link at h
      simp only [load_cache] at h
      rcases h with h | ⟨e, h⟩ | ⟨k, h⟩
      · exact Or.inl (Except.ok.inj h)
      · exact Or.inr (Or.inl ⟨e, Except.ok.inj h⟩)
      · exact Or.inr (Or.inr ⟨k, Except.ok.inj h⟩)
    | valid c =>
      refine key c rfl ?_
      unfold run_add_link at h
      simp only [load_cache] at h
      rcases h with h | ⟨e, h⟩ | ⟨k, h⟩
      · exact Or.inl (Except.ok.inj h)
      · exact Or.inr (Or.inl ⟨e, Except.ok.inj h⟩)
      · exact Or.inr (Or.inr ⟨k, Except.ok.inj h⟩)
  · intro f i h
    cases f with
    | invalid => rfl
    | absent =>
      unfold run_remove_link at h ⊢
      simp only [load_cache] at h ⊢
      rw [(remove_link_save emptyCache i).mpr (Except.ok.inj h)]
    | valid c =>
      unfold run_remove_link at h ⊢
      simp only [load_cache] at h ⊢
      rw [(remove_link_save c i).mpr (Except.ok.inj h)]
  · intro f k d n h
    cases f with
    | invalid => rfl
    | absent =>
      unfold run_add_issue at h ⊢
      simp only [load_cache] at h ⊢
      rw [add_issue_main_save emptyCache k d n (Except.ok.inj h)]
    | valid c =>
      unfold run_add_issue at h ⊢
      simp only [load_cache] at h ⊢
      rw [add_issue_main_save c k d n (Except.ok.inj h)]

/-- C10 witness: the atomicity theorem applied to concrete failing calls —
linking an unknown issue, unlinking a never-linked issue, and upserting an
issue with an empty name — against a concrete valid cache file. -/
theorem C10_witness :
    (run_add_link (FileState.valid emptyCache) "K" "a.md").2 =
        FileState.valid emptyCache ∧
      (run_remove_link (FileState.valid emptyCache) "K").2 =
        FileState.valid emptyCache ∧
      (run_add_issue (FileState.valid emptyCache) "K"
          ⟨some "u1", some "", none, none, none, none⟩ "T4").2 =
        FileState.valid emptyCache :=
  ⟨C10_error_atomicity.1 (FileState.valid emptyCache) "K" "a.md"
      (Or.inl (by rfl)),
   C10_error_atomicity.2.1 (FileState.valid emptyCache) "K" (by rfl),
   C10_error_atomicity.2.2 (FileState.valid emptyCache) "K"
      ⟨some "u1", some "", none, none, none, none⟩ "T4" (by rfl)⟩

theorem lookupSM_eq_none_iff {α : Type} (m : List (String × α)) (k : String) :
    lookupSM m k = none ↔ ∀ p ∈ m, p.1 ≠ k := by
  unfold lookupSM
  rw [Option.map_eq_none', List.find?_eq_none]
  constructor
  · intro h p hp
    have := h p hp
    simpa using this
  · intro h p hp
    simpa using h p hp

theorem mem_of_lookupSM {α : Type} (m : List (String × α)) (k : String) (v : α)
    (h : lookupSM m k = some v) : (k, v) ∈ m := by
  induction m with
  | nil => simp [lookupSM] at h
  | cons p m ih =>
    rw [lookupSM_cons] at h
    by_cases hpk : p.1 = k
    · rw [if_pos hpk] at h
      have hv : p.2 = v := Option.some.inj h
      have : p = (k, v) := Prod.ext hpk hv
      rw [← this]
      exact List.mem_cons_self p m
    · rw [if_neg hpk] at h
      exact List.mem_cons_of_mem p (ih h)

theorem lookupSM_of_mem {α : Type} (m : List (String × α)) (q : String × α)
    (hpw : m.Pairwise (fun p r => p.1 ≠ r.1)) (hq : q ∈ m) :
    lookupSM m q.1 = some q.2 := by
  induction m with
  | nil => cases hq
  | cons p m ih =>
    rcases List.mem_cons.mp hq with rfl | hq'
    · rw [lookupSM_cons, if_pos rfl]
    · rw [lookupSM_cons]
      have hpq : p.1 ≠ q.1 := (List.pairwise_cons.mp hpw).1 q hq'
      rw [if_neg hpq]
      exact ih (List.pairwise_cons.mp hpw).2 hq'

theorem mapNoop {α : Type} (l : List α) (f : α → α) (h : ∀ x ∈ l, f x = x) :
    l.map f = l := by
  induction l with
  | nil => rfl
  | cons a l ih =>
    rw [List.map_cons, h a (List.mem_cons_self a l),
      ih (fun x hx => h x (List.mem_cons_of_mem a hx))]

theorem upsertSM_eq_self {α : Type} (m : List (String × α)) (k : String) (v : α)
    (hpw : m.Pairwise (fun p r => p.1 ≠ r.1)) (h : lookupSM m k = some v) :
    upsertSM m k v = m := by
  unfold upsertSM
  rw [if_pos (by unfold containsSM; rw [h]; rfl)]
  apply mapNoop
  intro q hq
  by_cases hqk : q.1 = k
  · rw [if_pos hqk]
    have : lookupSM m q.1 = some q.2 := lookupSM_of_mem m q hpw hq
    rw [hqk, h] at this
    have hv : q.2 = v := (Option.some.inj this).symm
    exact (Prod.ext hqk hv).symm
  · rw [if_neg hqk]

theorem linkedSane_empty : linkedSane [] :=
  ⟨List.Pairwise.nil, fun p hp => absurd hp (List.not_mem_nil p)⟩

theorem linkedSane_erase (m : List (String × String)) (k : String)
    (h : linkedSane m) : linkedSane (eraseSM m k) :=
  ⟨h.1.sublist (List.filter_sublist m),
   fun p hp => h.2 p (List.mem_of_mem_filter hp)⟩

theorem linkedSane_append (m : List (String × String)) (i t : String)
    (h : linkedSane m) (hk : lookupSM m i = none)
    (hscan : m.find? (fun p => p.2 = t && ¬ p.1 = i) = none) (ht : t ≠ "") :
    linkedSane (m ++ [(i, t)]) := by
  constructor
  · rw [linkedBijective, List.pairwise_append]
    refine ⟨h.1, List.pairwise_singleton _ _, ?_⟩
    intro p hp q hq
    rw [List.mem_singleton] at hq
    subst hq
    have hne : p.1 ≠ i := (lookupSM_eq_none_iff m i).mp hk p hp
    refine ⟨hne, ?_⟩
    intro hvt
    have := List.find?_eq_none.mp hscan p hp
    simp only [Bool.and_eq_true, decide_eq_true_eq, not_and] at this
    exact this hvt (by simpa using hne)
  · intro p hp
    rcases List.mem_append.mp hp with hp' | hp'
    · exact h.2 p hp'
    · rw [List.mem_singleton] at hp'
      subst hp'
      exact ht

theorem sync_cache_ok_linked (S : Snapshot) (t : String) (c : Cache)
    (p : Cache × SyncResult) (h : sync_cache S t c = .ok p) :
    p.1.linked = c.linked := by
  unfold sync_cache at h
  dsimp only at h
  split at h
  · cases h
  · have h2 := Except.ok.inj h
    subst h2
    rfl

theorem add_issue_main_some_linked (c : Cache) (k : String) (d : IssueInput)
    (now : String) (c' : Cache) (h : (add_issue_main c k d now).2 = some c') :
    c'.linked = c.linked := by
  unfold add_issue_main add_issue at h
  split at h
  · dsimp only at h
    cases h
  · dsimp only at h
    have h2 := Option.some.inj h
    subst h2
    rfl

theorem remove_link_some_linked (c : Cache) (i : String) (c' : Cache)
    (h : (remove_link c i).2 = some c') : c'.linked = eraseSM c.linked i := by
  unfold remove_link at h
  cases hl : lookupSM c.linked i with
  | none => rw [hl] at h; cases h
  | some t =>
    rw [hl] at h
    have h2 := Option.some.inj h
    subst h2
    rfl

theorem addLinkScan_some_linked (c : Cache) (i t : String) (c' : Cache)
    (h : (addLinkScan c i t).2 = some c') :
    c'.linked = upsertSM c.linked i t ∧
      c.linked.find? (fun p => p.2 = t && ¬ p.1 = i) = none := by
  unfold addLinkScan at h
  cases hf : c.linked.find? (fun p => p.2 = t && ¬ p.1 = i) with
  | some p => rw [hf] at h; cases h
  | none =>
    rw [hf] at h
    have h2 := Option.some.inj h
    subst h2
    exact ⟨rfl, rfl⟩

theorem add_link_preserves_sane (c : Cache) (i t : String) (c' : Cache)
    (hs : linkedSane c.linked) (ht : t ≠ "")
    (h : (add_link c i t).2 = some c') : linkedSane c'.linked := by
  unfold add_link at h
  by_cases h1 : containsSM c.issues i = true
  · rw [if_neg (not_not_intro h1)] at h
    cases hl : lookupSM c.linked i with
    | none =>
      rw [hl] at h
      dsimp only at h
      obtain ⟨hlink, hscan⟩ := addLinkScan_some_linked c i t c' h
      rw [hlink]
      unfold upsertSM
      rw [if_neg (by unfold containsSM; rw [hl]; simp)]
      exact linkedSane_append c.linked i t hs hl hscan ht
    | some e =>
      rw [hl] at h
      dsimp only at h
      have he : e ≠ "" := hs.2 (i, e) (mem_of_lookupSM c.linked i e hl)
      by_cases hcond : (e ≠ "" && e ≠ t) = true
      · rw [if_pos hcond] at h
        dsimp only at h
        cases h
      · rw [if_neg hcond] at h
        have het : e = t := by
          simp only [Bool.and_eq_true, decide_eq_true_eq, not_and, Decidable.not_not] at hcond
          exact hcond he
        subst het
        obtain ⟨hlink, _⟩ := addLinkScan_some_linked c i e c' h
        rw [hlink, upsertSM_eq_self c.linked i e
          (hs.1.imp (fun hpq => hpq.1)) hl]
        exact hs
  · rw [if_pos h1] at h
    cases h

theorem reachable_linkedSane (c : Cache) (h : Reachable c) :
    linkedSane c.linked := by
  induction h with
  | empty => exact linkedSane_empty
  | step c op hc ih =>
    cases op with
    | syncOp data now =>
      dsimp only [applyOp]
      cases hs : sync_cache data now c with
      | error e => exact ih
      | ok p =>
        dsimp only
        rw [sync_cache_ok_linked data now c p hs]
        exact ih
    | touchOp now => exact ih
    | upsertIssue k d now =>
      dsimp only [applyOp]
      cases ha : (add_issue_main c k d now).2 with
      | none => exact ih
      | some c' =>
        dsimp only
        rw [add_issue_main_some_linked c k d now c' ha]
        exact ih
    | link i t =>
      dsimp only [applyOp]
      by_cases hg : t ≠ ""
      · rw [if_pos hg]
        cases ha : (add_link c i t).2 with
        | none => exact ih
        | some c' => exact add_link_preserves_sane c i t c' ih hg ha
      · rw [if_neg hg]
        exact ih
    | unlink i =>
      dsimp only [applyOp]
      cases ha : (remove_link c i).2 with
      | none => exact ih
      | some c' =>
        dsimp only
        rw [remove_link_some_linked c i c' ha]
        exact linkedSane_erase c.linked i ih

/-- C1: for every cache state reachable from the empty skeleton by any
sequence of sync, touch, issue-upsert, link, and unlink operations, the
`linked` mapping is injective in both directions — no issue key maps to two
task files, and no task file is the value of two distinct issue keys. -/
theorem C1_link_bijection (c : Cache) (h : Reachable c) :
    linkedBijective c.linked :=
  (reachable_linkedSane c h).1

/-- C1 witness: the invariant evaluated on the concrete reachable state
built by upserting one issue and linking it to one task file. -/
theorem C1_witness :
    linkedBijective (applyOp (applyOp emptyCache
        (Op.upsertIssue "CCPRISM-27" ⟨some "u1", some "Fix parser", none, none,
          none, none⟩ "T5")) (Op.link "CCPRISM-27" "m-feature.md")).linked :=
  C1_link_bijection _ (Reachable.step _ _ (Reachable.step _ _ Reachable.empty))

theorem linkedSane_value_unique (m : List (String × String))
    (hs : linkedSane m) (p q : String × String) (hp : p ∈ m) (hq : q ∈ m)
    (hv : p.2 = q.2) : p = q := by
  by_contra hne
  have hsym : Symmetric (fun p q : String × String => p.1 ≠ q.1 ∧ p.2 ≠ q.2) :=
    fun a b hab => ⟨hab.1.symm, hab.2.symm⟩
  exact (hs.1.forall hsym hp hq hne).2 hv

theorem find?_task_eq_none (m : List (String × String)) (i t : String)
    (hpw : m.Pairwise (fun p r => p.1 ≠ r.1))
    (hno : ¬ ∃ k, k ≠ i ∧ lookupSM m k = some t) :
    m.find? (fun p => p.2 = t && ¬ p.1 = i) = none := by
  cases hf : m.find? (fun p => p.2 = t && ¬ p.1 = i) with
  | none => rfl
  | some q =>
    exfalso
    have hqm := List.mem_of_find?_eq_some hf
    have hqp := List.find?_some hf
    simp only [Bool.and_eq_true, decide_eq_true_eq] at hqp
    refine hno ⟨q.1, by simpa using hqp.2, ?_⟩
    rw [lookupSM_of_mem m q hpw hqm, hqp.1]

/-- C2: on every reachable cache state, `link(issueKey, taskFile)` fails
with the not-found result when the issue key is absent from the issues
collection; fails with the issue-side conflict when the issue is already
linked to a different task file; fails with the task-side conflict when the
task file is already linked to a different issue key; succeeds as a no-op
confirmation (the saved document equals the loaded one) when the issue is
already linked to exactly this task file; and succeeds if and only if the
issue exists and neither conflict condition holds. -/
theorem C2_link_result_classification (c : Cache) (hr : Reachable c)
    (i t : String) :
    (containsSM c.issues i = false → (add_link c i t).1 = LinkRes.notFound) ∧
    (containsSM c.issues i = true → ∀ e, lookupSM c.linked i = some e →
      e ≠ t → (add_link c i t).1 = LinkRes.conflictIssue e) ∧
    (containsSM c.issues i = true →
      (lookupSM c.linked i = none ∨ lookupSM c.linked i = some t) →
      ∀ k, k ≠ i → lookupSM c.linked k = some t →
        (add_link c i t).1 = LinkRes.conflictTask k) ∧
    (containsSM c.issues i = true → lookupSM c.linked i = some t →
      add_link c i t =
        (LinkRes.linkedOk ((lookupSM c.issues i).bind (·.name)), some c)) ∧
    ((∃ nm, (add_link c i t).1 = LinkRes.linkedOk nm) ↔
      (containsSM c.issues i = true ∧
        ¬(∃ e, lookupSM c.linked i = some e ∧ e ≠ t) ∧
        ¬(∃ k, k ≠ i ∧ lookupSM c.linked k = some t))) := by
  have hs := reachable_linkedSane c hr
  have hpw : c.linked.Pairwise (fun p r => p.1 ≠ r.1) :=
    hs.1.imp (fun h => h.1)
  have cl1 : containsSM c.issues i = false →
      (add_link c i t).1 = LinkRes.notFound := by
    intro hfalse
    have hnot : ¬ containsSM c.issues i = true := by
      rw [hfalse]; exact Bool.false_ne_true
    unfold add_link
    rw [if_pos hnot]
  have cl2 : containsSM c.issues i = true → ∀ e,
      lookupSM c.linked i = some e → e ≠ t →
      (add_link c i t).1 = LinkRes.conflictIssue e := by
    intro hcont e hl het
    have he : e ≠ "" := hs.2 (i, e) (mem_of_lookupSM c.linked i e hl)
    unfold add_link
    rw [if_neg (not_not_intro hcont), hl]
    dsimp only
    rw [if_pos (by simp [he, het])]
  have cl3 : containsSM c.issues i = true →
      (lookupSM c.linked i = none ∨ lookupSM c.linked i = some t) →
      ∀ k, k ≠ i → lookupSM c.linked k = some t →
      (add_link c i t).1 = LinkRes.conflictTask k := by
    intro hcont hl k hki hk
    have hkm : (k, t) ∈ c.linked := mem_of_lookupSM c.linked k t hk
    have hfind : c.linked.find? (fun p => p.2 = t && ¬ p.1 = i) = some (k, t) := by
      cases hf : c.linked.find? (fun p => p.2 = t && ¬ p.1 = i) with
      | none =>
        exfalso
        have := List.find?_eq_none.mp hf (k, t) hkm
        simp [hki] at this
      | some q =>
        have hqm := List.mem_of_find?_eq_some hf
        have hqp := List.find?_some hf
        simp only [Bool.and_eq_true, decide_eq_true_eq] at hqp
        have hq : q = (k, t) :=
          linkedSane_value_unique c.linked hs q (k, t) hqm hkm (by simp [hqp.1])
        rw [hq]
    unfold add_link addLinkScan
    rw [if_neg (not_not_intro hcont)]
    rcases hl with hl | hl
    · rw [hl]
      dsimp only
      rw [hfind]
    · rw [hl]
      dsimp only
      rw [if_neg (by simp), hfind]
  have cl4 : containsSM c.issues i = true → lookupSM c.linked i = some t →
      add_link c i t =
        (LinkRes.linkedOk ((lookupSM c.issues i).bind (·.name)), some c) := by
    intro hcont hl
    have hno : ¬ ∃ k, k ≠ i ∧ lookupSM c.linked k = some t := by
      rintro ⟨k, hki, hk⟩
      have h1 : (k, t) ∈ c.linked := mem_of_lookupSM c.linked k t hk
      have h2 : (i, t) ∈ c.linked := mem_of_lookupSM c.linked i t hl
      have := linkedSane_value_unique c.linked hs (k, t) (i, t) h1 h2 rfl
      exact hki (congrArg Prod.fst this)
    have hfind := find?_task_eq_none c.linked i t hpw hno
    unfold add_link addLinkScan
    rw [if_neg (not_not_intro hcont), hl]
    dsimp only
    rw [if_neg (by simp), hfind]
    dsimp only
    rw [upsertSM_eq_self c.linked i t hpw hl]
  refine ⟨cl1, cl2, cl3, cl4, ?_, ?_⟩
  · rintro ⟨nm, hnm⟩
    by_cases hcont : containsSM c.issues i = true
    · refine ⟨hcont, ?_, ?_⟩
      · rintro ⟨e, hl, het⟩
        rw [cl2 hcont e hl het] at hnm
        cases hnm
      · rintro ⟨k, hki, hk⟩
        cases hle : lookupSM c.linked i with
        | none =>
          rw [cl3 hcont (Or.inl hle) k hki hk] at hnm
          cases hnm
        | some e =>
          by_cases het : e = t
          · subst het
            rw [cl3 hcont (Or.inr hle) k hki hk] at hnm
            cases hnm
          · rw [cl2 hcont e hle het] at hnm
            cases hnm
    · have hfalse : containsSM c.issues i = false := by
        cases hcc : containsSM c.issues i
        · rfl
        · exact absurd hcc hcont
      rw [cl1 hfalse] at hnm
      cases hnm
  · rintro ⟨hcont, hnoe, hnok⟩
    cases hle : lookupSM c.linked i with
    | some e =>
      have het : e = t := by
        by_contra het
        exact hnoe ⟨e, hle, het⟩
      subst het
      exact ⟨_, by rw [cl4 hcont hle]⟩
    | none =>
      have hfind := find?_task_eq_none c.linked i t hpw hnok
      refine ⟨(lookupSM c.issues i).bind (·.name), ?_⟩
      unfold add_link addLinkScan
      rw [if_neg (not_not_intro hcont), hle]
      dsimp only
      rw [hfind]

/-- C2 witness: the theorem applied on the concrete reachable state holding
issue "CCPRISM-1": linking an unknown key gives the not-found result. -/
theorem C2_witness :
    (add_link (applyOp emptyCache (Op.upsertIssue "CCPRISM-1"
        ⟨some "u2", some "New task", none, none, none, none⟩ "T6"))
      "MISSING" "a.md").1 = LinkRes.notFound :=
  (C2_link_result_classification _ (Reachable.step _ _ Reachable.empty)
    "MISSING" "a.md").1 (by decide)

theorem discover_ok_elim (c : Cache) (dir : List TaskFile) (cs : Bool)
    (r : Report) (h : discover c dir cs = .ok r) :
    r.unlinked_issues = c.issues.filterMap (fun p =>
        if containsSM c.linked p.1 then none
        else some (p.1, ((p.2).name, (p.2).state))) ∧
      r.unlinked_tasks = (get_task_files dir).filterMap (fun t =>
        if c.linked.any (fun p => p.2 = t.name) then none
        else unlinkedTaskEntry c.linked t) ∧
      (cs = true → collectMismatches c dir c.linked = .ok r.status_mismatches) ∧
      (cs = false → r.status_mismatches = []) := by
  unfold discover at h
  cases cs with
  | false =>
    simp only [if_neg Bool.false_ne_true, bind, Except.bind, pure, Except.pure] at h
    have h2 := Except.ok.inj h
    subst h2
    refine ⟨rfl, rfl, ?_, fun _ => rfl⟩
    intro hh
    exact absurd hh (by simp)
  | true =>
    simp only [if_pos rfl, bind, Except.bind] at h
    cases hcm : collectMismatches c dir c.linked with
    | error e => rw [hcm] at h; cases h
    | ok L =>
      rw [hcm] at h
      simp only [pure, Except.pure] at h
      have h2 := Except.ok.inj h
      subst h2
      refine ⟨rfl, rfl, fun _ => rfl, ?_⟩
      intro hh
      exact absurd hh (by simp)

theorem unlinkedTaskEntry_withClaim (linked : List (String × String))
    (t : TaskFile) (fm : List (String × String)) (pi : String)
    (hfm : t.frontmatter = some fm) (hne : fm ≠ [])
    (hpi : lookupSM fm "plane_issue" = some pi) (hp1 : pi ≠ "")
    (hp2 : containsSM linked pi = false) :
    unlinkedTaskEntry linked t =
      some (.withClaim t.name pi (lookupSM fm "status")) := by
  unfold unlinkedTaskEntry
  rw [hfm]
  cases fm with
  | nil => exact absurd rfl hne
  | cons a l =>
    dsimp only
    rw [hpi]
    dsimp only
    rw [if_pos (by simp [hp1, hp2])]

theorem unlinkedTaskEntry_bare_none (linked : List (String × String))
    (t : TaskFile) (fm : List (String × String))
    (hfm : t.frontmatter = some fm) (hne : fm ≠ [])
    (hpi : lookupSM fm "plane_issue" = none) :
    unlinkedTaskEntry linked t =
      some (.bare t.name (lookupSM fm "status")) := by
  unfold unlinkedTaskEntry
  rw [hfm]
  cases fm with
  | nil => exact absurd rfl hne
  | cons a l =>
    dsimp only
    rw [hpi]

theorem unlinkedTaskEntry_bare_empty (linked : List (String × String))
    (t : TaskFile) (fm : List (String × String))
    (hfm : t.frontmatter = some fm) (hne : fm ≠ [])
    (hpi : lookupSM fm "plane_issue" = some "") :
    unlinkedTaskEntry linked t =
      some (.bare t.name (lookupSM fm "status")) := by
  unfold unlinkedTaskEntry
  rw [hfm]
  cases fm with
  | nil => exact absurd rfl hne
  | cons a l =>
    dsimp only
    rw [hpi]
    dsimp only
    rw [if_neg (by simp), if_pos rfl]

theorem unlinkedTaskEntry_sound (linked : List (String × String))
    (t : TaskFile) (u : UnlinkedTask)
    (h : unlinkedTaskEntry linked t = some u) :
    ∃ fm, t.frontmatter = some fm ∧ fm ≠ [] ∧
      ((∃ pi, lookupSM fm "plane_issue" = some pi ∧ pi ≠ "" ∧
          containsSM linked pi = false ∧
          u = UnlinkedTask.withClaim t.name pi (lookupSM fm "status")) ∨
       ((lookupSM fm "plane_issue" = none ∨
          lookupSM fm "plane_issue" = some "") ∧
          u = UnlinkedTask.bare t.name (lookupSM fm "status"))) := by
  unfold unlinkedTaskEntry at h
  cases hfm : t.frontmatter with
  | none => rw [hfm] at h; cases h
  | some fm =>
    rw [hfm] at h
    cases fm with
    | nil => cases h
    | cons a l =>
      dsimp only at h
      refine ⟨a :: l, rfl, by simp, ?_⟩
      cases hpi : lookupSM (a :: l) "plane_issue" with
      | none =>
        rw [hpi] at h
        dsimp only at h
        exact Or.inr ⟨Or.inl rfl, (Option.some.inj h).symm⟩
      | some pi =>
        rw [hpi] at h
        dsimp only at h
        by_cases hcond : (pi ≠ "" && ¬ containsSM linked pi) = true
        · rw [if_pos hcond] at h
          simp only [Bool.and_eq_true, decide_eq_true_eq] at hcond
          exact Or.inl ⟨pi, rfl, hcond.1,
            Bool.not_eq_true _ ▸ Bool.of_not_eq_true hcond.2,
            (Option.some.inj h).symm⟩
        · rw [if_neg hcond] at h
          by_cases hempty : pi = ""
          · rw [if_pos hempty] at h
            exact Or.inr ⟨Or.inr (by rw [hempty]), (Option.some.inj h).symm⟩
          · rw [if_neg hempty] at h
            cases h

/-- C5 counterexample: the task file "a.md" is enumerated, absent from the
Links value set, and has no frontmatter at all — the claim requires it to
appear bare in `unlinkedTasks`, but the `if frontmatter:` guard of the code
skips it entirely: the report's `unlinked_tasks` is empty. -/
theorem C5_counterexample :
    discover emptyCache [⟨"a.md", none⟩] false =
      Except.ok ⟨[], [], [], ⟨0, 0, 0, 0, 0⟩⟩ := by
  rfl

/-- C5 (amended): `unlinkedTasks` is complete over the enumerated task files
that are absent from the Links value set and have a non-empty parsed
frontmatter: such a file appears tagged with its dangling claim when its
frontmatter declares a non-empty `plane_issue` that is not a current Link
key, and bare (file and status only) when it declares no `plane_issue`.
Conversely, every reported entry arises exactly this way — so files whose
frontmatter is missing or parses to an empty mapping, and files claiming a
currently linked issue key, are omitted. -/
theorem C5_unlinked_tasks_characterization (c : Cache) (dir : List TaskFile)
    (cs : Bool) (r : Report) (h : discover c dir cs = .ok r) :
    (∀ t ∈ get_task_files dir,
      c.linked.any (fun p => p.2 = t.name) = false →
      ∀ fm, t.frontmatter = some fm → fm ≠ [] →
        (∀ pi, lookupSM fm "plane_issue" = some pi → pi ≠ "" →
          containsSM c.linked pi = false →
          UnlinkedTask.withClaim t.name pi (lookupSM fm "status") ∈
            r.unlinked_tasks) ∧
        (lookupSM fm "plane_issue" = none →
          UnlinkedTask.bare t.name (lookupSM fm "status") ∈
            r.unlinked_tasks)) ∧
    (∀ u ∈ r.unlinked_tasks, ∃ t ∈ get_task_files dir,
      c.linked.any (fun p => p.2 = t.name) = false ∧
      ∃ fm, t.frontmatter = some fm ∧ fm ≠ [] ∧
        ((∃ pi, lookupSM fm "plane_issue" = some pi ∧ pi ≠ "" ∧
            containsSM c.linked pi = false ∧
            u = UnlinkedTask.withClaim t.name pi (lookupSM fm "status")) ∨
         ((lookupSM fm "plane_issue" = none ∨
            lookupSM fm "plane_issue" = some "") ∧
            u = UnlinkedTask.bare t.name (lookupSM fm "status")))) := by
  obtain ⟨-, hut, -, -⟩ := discover_ok_elim c dir cs r h
  constructor
  · intro t ht hlv fm hfm hne
    constructor
    · intro pi hpi hp1 hp2
      rw [hut]
      apply List.mem_filterMap.mpr
      refine ⟨t, ht, ?_⟩
      rw [if_neg (by rw [hlv]; simp),
        unlinkedTaskEntry_withClaim c.linked t fm pi hfm hne hpi hp1 hp2]
    · intro hpi
      rw [hut]
      apply List.mem_filterMap.mpr
      refine ⟨t, ht, ?_⟩
      rw [if_neg (by rw [hlv]; simp),
        unlinkedTaskEntry_bare_none c.linked t fm hfm hne hpi]
  · intro u hu
    rw [hut] at hu
    obtain ⟨t, ht, hval⟩ := List.mem_filterMap.mp hu
    by_cases hlv : c.linked.any (fun p => p.2 = t.name) = true
    · rw [if_pos hlv] at hval
      cases hval
    · have hlv' : c.linked.any (fun p => p.2 = t.name) = false := by
        cases hb : c.linked.any (fun p => p.2 = t.name)
        · rfl
        · exact absurd hb hlv
      rw [if_neg hlv] at hval
      exact ⟨t, ht, hlv', unlinkedTaskEntry_sound c.linked t u hval⟩

/-- C5 witness: the amended completeness clause applied to a concrete
directory with one file whose frontmatter claims a dangling issue. -/
theorem C5_witness :
    UnlinkedTask.withClaim "b.md" "CCPRISM-9" (some "pending") ∈
      (⟨[], [UnlinkedTask.withClaim "b.md" "CCPRISM-9" (some "pending")], [],
        ⟨0, 1, 0, 0, 0⟩⟩ : Report).unlinked_tasks :=
  ((C5_unlinked_tasks_characterization emptyCache
      [⟨"b.md", some [("plane_issue", "CCPRISM-9"), ("status", "pending")]⟩]
      false _ rfl).1
    ⟨"b.md", some [("plane_issue", "CCPRISM-9"), ("status", "pending")]⟩
    (by decide) rfl [("plane_issue", "CCPRISM-9"), ("status", "pending")] rfl
    (by decide)).1 "CCPRISM-9" (by decide) (by decide) (by decide)

theorem mismatchFor_some_iff (c : Cache) (dir : List TaskFile)
    (ik tf : String) (m : Mismatch) :
    mismatchFor c dir (ik, tf) = .ok (some m) ↔
      ∃ t, dir.find? (fun d => d.name = tf) = some t ∧
      ∃ fm, t.frontmatter = some fm ∧ fm ≠ [] ∧
      ∃ st, ((lookupSM c.issues ik = none ∧ st = "") ∨
             (∃ irec, lookupSM c.issues ik = some irec ∧ irec.state = some st)) ∧
        pyLower (map_task_status_to_plane_state ((lookupSM fm "status").getD "")) ≠
          pyLower st ∧
        m = ⟨ik, tf, (lookupSM fm "status").getD "", st,
             map_task_status_to_plane_state ((lookupSM fm "status").getD "")⟩ := by
  unfold mismatchFor
  dsimp only
  cases hfind : dir.find? (fun d => d.name = tf) with
  | none =>
    constructor
    · intro h; cases h
    · rintro ⟨t, ht, -⟩; cases ht
  | some t =>
    simp only [Option.some.injEq]
    constructor
    · intro h
      refine ⟨t, rfl, ?_⟩
      cases hfm : t.frontmatter with
      | none => rw [hfm] at h; cases h
      | some fm =>
        rw [hfm] at h
        cases fm with
        | nil => cases h
        | cons a l =>
          dsimp only at h
          refine ⟨a :: l, rfl, by simp, ?_⟩
          cases hiss : lookupSM c.issues ik with
          | none =>
            rw [hiss] at h
            dsimp only at h
            by_cases hcond : pyLower (map_task_status_to_plane_state
                ((lookupSM (a :: l) "status").getD "")) ≠ ""
            · rw [if_pos hcond] at h
              refine ⟨"", Or.inl ⟨rfl, rfl⟩, by simpa using hcond,
                (Option.some.inj (Except.ok.inj h)).symm⟩
            · rw [if_neg hcond] at h
              cases Except.ok.inj h
          | some irec =>
            rw [hiss] at h
            dsimp only at h
            cases hst : irec.state with
            | none => rw [hst] at h; cases h
            | some st =>
              rw [hst] at h
              dsimp only at h
              by_cases hcond : pyLower (map_task_status_to_plane_state
                  ((lookupSM (a :: l) "status").getD "")) ≠ pyLower st
              · rw [if_pos hcond] at h
                refine ⟨st, Or.inr ⟨irec, rfl, hst⟩, hcond,
                  (Option.some.inj (Except.ok.inj h)).symm⟩
              · rw [if_neg hcond] at h
                cases Except.ok.inj h
    · rintro ⟨t', ht', fm, hfm, hne, st, hstc, hcond, hm⟩
      have htt : t' = t := ht'.symm
      subst htt
      rw [hfm]
      cases fm with
      | nil => exact absurd rfl hne
      | cons a l =>
        dsimp only
        rcases hstc with ⟨hiss, hst0⟩ | ⟨irec, hiss, hst⟩
        · rw [hiss]
          dsimp only
          subst hst0
          rw [if_pos (by simpa using hcond), hm]
        · rw [hiss]
          dsimp only
          rw [hst]
          dsimp only
          rw [if_pos hcond, hm]

theorem collectMismatches_ok_mem (c : Cache) (dir : List TaskFile)
    (l : List (String × String)) (L : List Mismatch)
    (h : collectMismatches c dir l = .ok L) (m : Mismatch) :
    m ∈ L ↔ ∃ p ∈ l, mismatchFor c dir p = .ok (some m) := by
  induction l generalizing L with
  | nil =>
    have hL : ([] : List Mismatch) = L := Except.ok.inj h
    subst hL
    simp
  | cons p rest ih =>
    unfold collectMismatches at h
    cases hmf : mismatchFor c dir p with
    | error e =>
      rw [hmf] at h
      simp only [bind, Except.bind] at h
      cases h
    | ok o =>
      rw [hmf] at h
      simp only [bind, Except.bind] at h
      cases hc : collectMismatches c dir rest with
      | error e => rw [hc] at h; cases h
      | ok L' =>
        rw [hc] at h
        simp only [pure, Except.pure] at h
        have hL := Except.ok.inj h
        subst hL
        cases o with
        | some mm =>
          dsimp only
          constructor
          · intro hmem
            rcases List.mem_cons.mp hmem with rfl | hmem'
            · exact ⟨p, List.mem_cons_self p rest, hmf⟩
            · obtain ⟨q, hq, hqm⟩ := (ih L' hc).mp hmem'
              exact ⟨q, List.mem_cons_of_mem p hq, hqm⟩
          · rintro ⟨q, hq, hqm⟩
            rcases List.mem_cons.mp hq with rfl | hq'
            · rw [hmf] at hqm
              have h3 : mm = m := Option.some.inj (Except.ok.inj hqm)
              subst h3
              exact List.mem_cons_self mm L'
            · exact List.mem_cons_of_mem mm ((ih L' hc).mpr ⟨q, hq', hqm⟩)
        | none =>
          dsimp only
          constructor
          · intro hmem
            obtain ⟨q, hq, hqm⟩ := (ih L' hc).mp hmem
            exact ⟨q, List.mem_cons_of_mem p hq, hqm⟩
          · rintro ⟨q, hq, hqm⟩
            rcases List.mem_cons.mp hq with rfl | hq'
            · rw [hmf] at hqm
              cases Except.ok.inj hqm
            · exact (ih L' hc).mpr ⟨q, hq', hqm⟩

/-- C9: when the status check is requested, the reported mismatches are
exactly the links whose task file is found in the directory, whose
frontmatter parses to a non-empty mapping, and whose status — mapped
through backlog→Backlog, pending→Todo, in_progress/in-progress→In Progress,
completed→Done, cancelled→Cancelled, unmapped values passing through
unchanged — differs case-insensitively from the issue's stored state name
(the empty string when the issue key is absent); links whose file is
missing or whose frontmatter is unparsable (or empty) are silently skipped.
In particular, a linked issue with stored state "In Progress" and
frontmatter status "pending" yields exactly one mismatch with taskStatus
"pending", planeState "In Progress", expectedState "Todo". -/
theorem C9_status_mismatch_detection :
    (∀ c dir r, discover c dir true = Except.ok r → ∀ m,
      m ∈ r.status_mismatches ↔
        ∃ ik tf, (ik, tf) ∈ c.linked ∧
        ∃ t, dir.find? (fun d => d.name = tf) = some t ∧
        ∃ fm, t.frontmatter = some fm ∧ fm ≠ [] ∧
        ∃ st, ((lookupSM c.issues ik = none ∧ st = "") ∨
               (∃ irec, lookupSM c.issues ik = some irec ∧
                  irec.state = some st)) ∧
          pyLower (map_task_status_to_plane_state
            ((lookupSM fm "status").getD "")) ≠ pyLower st ∧
          m = ⟨ik, tf, (lookupSM fm "status").getD "", st,
               map_task_status_to_plane_state ((lookupSM fm "status").getD "")⟩) ∧
    discover
        { project := none, states := [],
          issues := [("CCPRISM-27", ⟨some "u", some "N", some "In Progress",
            none, some "none", none⟩)],
          linked := [("CCPRISM-27", "t.md")], lastSync := none }
        [⟨"t.md", some [("status", "pending")]⟩] true =
      Except.ok ⟨[], [],
        [⟨"CCPRISM-27", "t.md", "pending", "In Progress", "Todo"⟩],
        ⟨0, 0, 1, 1, 1⟩⟩ := by
  constructor
  · intro c dir r h m
    obtain ⟨-, -, hcm, -⟩ := discover_ok_elim c dir true r h
    rw [collectMismatches_ok_mem c dir c.linked r.status_mismatches (hcm rfl) m]
    constructor
    · rintro ⟨p, hp, hpm⟩
      exact ⟨p.1, p.2, hp, (mismatchFor_some_iff c dir p.1 p.2 m).mp hpm⟩
    · rintro ⟨ik, tf, hmem, hrest⟩
      exact ⟨(ik, tf), hmem, (mismatchFor_some_iff c dir ik tf m).mpr hrest⟩
  · rfl

/-- C9 witness: the characterization applied to the concrete one-link cache
of the claim's example. -/
theorem C9_witness :
    (⟨"CCPRISM-27", "t.md", "pending", "In Progress", "Todo"⟩ : Mismatch) ∈
      (⟨[], [], [⟨"CCPRISM-27", "t.md", "pending", "In Progress", "Todo"⟩],
        ⟨0, 0, 1, 1, 1⟩⟩ : Report).status_mismatches :=
  (C9_status_mismatch_detection.1
      { project := none, states := [],
        issues := [("CCPRISM-27", ⟨some "u", some "N", some "In Progress",
          none, some "none", none⟩)],
        linked := [("CCPRISM-27", "t.md")], lastSync := none }
      [⟨"t.md", some [("status", "pending")]⟩] _ (by rfl)
      ⟨"CCPRISM-27", "t.md", "pending", "In Progress", "Todo"⟩).mpr
    ⟨"CCPRISM-27", "t.md", by decide,
     ⟨"t.md", some [("status", "pending")]⟩, by decide,
     [("status", "pending")], rfl, by decide,
     "In Progress",
     Or.inr ⟨⟨some "u", some "N", some "In Progress", none, some "none", none⟩,
       rfl, rfl⟩,
     by decide, by decide⟩

theorem lastSpecialId_cons (s : SnapState) (t : List SnapState) (k : String) :
    lastSpecialId (s :: t) k =
      (lastSpecialId t k).or
        (if isSpecialState s && normName s.name = k then some s.id else none) := by
  unfold lastSpecialId
  rw [List.reverse_cons, List.find?_append]
  cases hf : t.reverse.find? (fun s => isSpecialState s && normName s.name = k) with
  | some q => simp [Option.or]
  | none =>
    by_cases hp : (isSpecialState s && normName s.name = k) = true
    · simp [hp, List.find?, Option.or]
    · simp [hp, List.find?, Option.or]

theorem firstCanonId_cons (s : SnapState) (t : List SnapState) (k : String) :
    firstCanonId (s :: t) k =
      if !isSpecialState s && map_state_group_to_status (s.group.getD "") = k
      then some s.id else firstCanonId t k := by
  unfold firstCanonId
  rw [List.find?_cons]
  by_cases hp : (!isSpecialState s &&
      map_state_group_to_status (s.group.getD "") = k) = true
  · simp [hp]
  · simp [hp]

theorem syncStates_lookup (l : List SnapState) (m : List (String × String))
    (k : String) :
    lookupSM (syncStates l m) k =
      (lastSpecialId l k).or ((lookupSM m k).or (firstCanonId l k)) := by
  induction l generalizing m with
  | nil =>
    cases h : lookupSM m k <;>
      simp [syncStates, lastSpecialId, firstCanonId, h, Option.or]
  | cons s t ih =>
    have hstep : syncStates (s :: t) m = syncStates t (syncStateStep m s) := rfl
    rw [hstep, ih, lastSpecialId_cons, firstCanonId_cons]
    by_cases hsp : isSpecialState s = true
    · by_cases hνk : normName s.name = k
      · have hlk : lookupSM (syncStateStep m s) k = some s.id := by
          unfold syncStateStep
          rw [if_pos hsp, hνk, lookupSM_upsert_self]
        rw [hlk]
        cases lastSpecialId t k <;> cases lookupSM m k <;>
          cases firstCanonId t k <;> simp [hsp, hνk, Option.or]
      · have hlk : lookupSM (syncStateStep m s) k = lookupSM m k := by
          unfold syncStateStep
          rw [if_pos hsp]
          exact lookupSM_upsert_ne m (normName s.name) k s.id
            (fun hh => hνk hh.symm)
        rw [hlk]
        cases lastSpecialId t k <;> cases lookupSM m k <;>
          cases firstCanonId t k <;> simp [hsp, hνk, Option.or]
    · have hsp' : isSpecialState s = false := by
        cases hb : isSpecialState s
        · rfl
        · exact absurd hb hsp
      by_cases hκk : map_state_group_to_status (s.group.getD "") = k
      · by_cases hc : containsSM m (map_state_group_to_status (s.group.getD "")) = true
        · have hstepm : syncStateStep m s = m := by
            unfold syncStateStep
            rw [if_neg (by rw [hsp']; simp), if_pos hc]
          rw [hstepm]
          cases hm : lookupSM m k with
          | none =>
            exfalso
            rw [hκk] at hc
            unfold containsSM at hc
            rw [hm] at hc
            cases hc
          | some v =>
            cases lastSpecialId t k <;> cases firstCanonId t k <;>
              simp [hsp', hκk, Option.or]
        · have hstepm : syncStateStep m s =
              upsertSM m (map_state_group_to_status (s.group.getD "")) s.id := by
            unfold syncStateStep
            rw [if_neg (by rw [hsp']; simp), if_neg hc]
          have hm : lookupSM m k = none := by
            rw [← hκk]
            unfold containsSM at hc
            cases hmm : lookupSM m (map_state_group_to_status (s.group.getD "")) with
            | none => rfl
            | some v => rw [hmm] at hc; exact absurd rfl hc
          have hlk : lookupSM (syncStateStep m s) k = some s.id := by
            rw [hstepm, ← hκk, lookupSM_upsert_self]
          rw [hlk, hm]
          cases lastSpecialId t k <;> cases firstCanonId t k <;>
            simp [hsp', hκk, Option.or]
      · have hlk : lookupSM (syncStateStep m s) k = lookupSM m k := by
          unfold syncStateStep
          rw [if_neg (by rw [hsp']; simp)]
          by_cases hc : containsSM m (map_state_group_to_status (s.group.getD "")) = true
          · rw [if_pos hc]
          · rw [if_neg hc]
            exact lookupSM_upsert_ne m _ k s.id (fun hh => hκk hh.symm)
        rw [hlk]
        cases lastSpecialId t k <;> cases lookupSM m k <;>
          cases firstCanonId t k <;> simp [hsp', hκk, Option.or]

/-- C6: state-vocabulary normalization.  (1) A state whose normalized name
is special ("in_review"/"ready_to_merge") is always recorded under that
literal name: after the loop that key holds the id of the last such state
of the list.  (2) First-seen-wins for every other key: a slot already
populated before the loop is never changed by non-special states.  (3) An
initially empty canonical slot ends up holding the id of the first
non-special state whose canonical status is that key.  (4) The concrete
example: syncing Todo/unstarted, In Progress/started, In Review/started
into an empty cache yields states.pending="s1", states.in_progress="s2",
states.in_review="s3". -/
theorem C6_state_vocabulary_normalization :
    (∀ (l : List SnapState) (m : List (String × String)) (s : SnapState),
      s ∈ l → isSpecialState s = true →
      ∃ s', s' ∈ l ∧ isSpecialState s' = true ∧
        normName s'.name = normName s.name ∧
        lookupSM (syncStates l m) (normName s.name) = some s'.id) ∧
    (∀ (l : List SnapState) (m : List (String × String)) (k : String),
      containsSM m k = true →
      (∀ s ∈ l, isSpecialState s = true → normName s.name ≠ k) →
      lookupSM (syncStates l m) k = lookupSM m k) ∧
    (∀ (l : List SnapState) (m : List (String × String)) (k : String),
      containsSM m k = false →
      (∀ s ∈ l, isSpecialState s = true → normName s.name ≠ k) →
      lookupSM (syncStates l m) k = firstCanonId l k) ∧
    (sync_cache ⟨none, some [⟨"s1", "Todo", some "unstarted"⟩,
        ⟨"s2", "In Progress", some "started"⟩,
        ⟨"s3", "In Review", some "started"⟩], none⟩ "T7" emptyCache =
      Except.ok (⟨none,
        [("pending", "s1"), ("in_progress", "s2"), ("in_review", "s3")],
        [], [], some "T7"⟩,
        ⟨0, 3, [], []⟩)) := by
  refine ⟨?_, ?_, ?_, by rfl⟩
  · intro l m s hs hsp
    have hmem : s ∈ l.reverse := List.mem_reverse.mpr hs
    cases hf : l.reverse.find?
        (fun s' => isSpecialState s' && normName s'.name = normName s.name) with
    | none =>
      exfalso
      have := List.find?_eq_none.mp hf s hmem
      simp [hsp] at this
    | some q =>
      have hqm : q ∈ l := List.mem_reverse.mp (List.mem_of_find?_eq_some hf)
      have hqp := List.find?_some hf
      simp only [Bool.and_eq_true, decide_eq_true_eq] at hqp
      refine ⟨q, hqm, hqp.1, hqp.2, ?_⟩
      rw [syncStates_lookup]
      have hls : lastSpecialId l (normName s.name) = some q.id := by
        unfold lastSpecialId
        rw [hf]
        rfl
      rw [hls]
      rfl
  · intro l m k hc hno
    rw [syncStates_lookup]
    have hls : lastSpecialId l k = none := by
      unfold lastSpecialId
      have hf : l.reverse.find?
          (fun s => isSpecialState s && normName s.name = k) = none := by
        apply List.find?_eq_none.mpr
        intro x hx
        have hxl := List.mem_reverse.mp hx
        simp only [Bool.and_eq_true, decide_eq_true_eq, not_and]
        intro hxs
        exact hno x hxl hxs
      rw [hf]
      rfl
    rw [hls]
    unfold containsSM at hc
    cases hm : lookupSM m k with
    | none => rw [hm] at hc; cases hc
    | some v => rfl
  · intro l m k hc hno
    rw [syncStates_lookup]
    have hls : lastSpecialId l k = none := by
      unfold lastSpecialId
      have hf : l.reverse.find?
          (fun s => isSpecialState s && normName s.name = k) = none := by
        apply List.find?_eq_none.mpr
        intro x hx
        have hxl := List.mem_reverse.mp hx
        simp only [Bool.and_eq_true, decide_eq_true_eq, not_and]
        intro hxs
        exact hno x hxl hxs
      rw [hf]
      rfl
    rw [hls]
    unfold containsSM at hc
    cases hm : lookupSM m k with
    | none => rfl
    | some v => rw [hm] at hc; cases hc

/-- C6 witness: the first-seen-wins clause on a concrete populated slot — a
later same-group non-special state ("In Progress", group "started") does
not overwrite the already-recorded "in_progress" slot. -/
theorem C6_witness :
    lookupSM (syncStates [⟨"s2", "In Progress", some "started"⟩]
      [("in_progress", "s0")]) "in_progress" =
      lookupSM [("in_progress", "s0")] "in_progress" :=
  C6_state_vocabulary_normalization.2.1
    [⟨"s2", "In Progress", some "started"⟩] [("in_progress", "s0")]
    "in_progress" (by decide) (by decide)

theorem lastWriteD_cons (ident : String) (byId : List (String × SnapState))
    (i : SnapIssue) (rest : List SnapIssue) (k : String) :
    lastWriteD ident byId (i :: rest) k =
      (lastWriteD ident byId rest k).or
        (if entryKeyD ident i = k
         then some (mkIssueData byId i (i.id.getD "") (i.name.getD ""))
         else none) := by
  unfold lastWriteD
  rw [List.reverse_cons, List.find?_append]
  cases hf : rest.reverse.find? (fun j => entryKeyD ident j = k) with
  | some q => simp [Option.or]
  | none =>
    by_cases hp : entryKeyD ident i = k
    · simp [hp, List.find?, Option.or]
    · simp [hp, List.find?, Option.or]

theorem syncIssueStep_ok_m (ident : String) (byId : List (String × SnapState))
    (acc acc₁ : IssAcc) (i : SnapIssue) (s : Nat) (a n : String)
    (hs : i.sequence_id = some s) (ha : i.id = some a) (hn : i.name = some n)
    (hstep : syncIssueStep ident byId acc i = .ok acc₁) :
    acc₁.m = upsertSM acc.m (entryKeyD ident i) (mkIssueData byId i a n) := by
  rw [syncIssueStep_eq_ok ident byId acc i s a n hs ha hn] at hstep
  cases hl : lookupSM acc.m (entryKeyD ident i) with
  | none =>
    rw [hl] at hstep
    have := Except.ok.inj hstep
    rw [← this]
  | some old =>
    rw [hl] at hstep
    dsimp only at hstep
    by_cases hu : old.updated_at ≠ (mkIssueData byId i a n).updated_at
    · rw [if_pos hu] at hstep
      have := Except.ok.inj hstep
      rw [← this]
    · rw [if_neg hu] at hstep
      have := Except.ok.inj hstep
      rw [← this]

theorem syncIssuesLoop_lookup (ident : String)
    (byId : List (String × SnapState)) (l : List SnapIssue) (acc out : IssAcc)
    (h : syncIssuesLoop ident byId l acc = .ok out) (k : String) :
    lookupSM out.m k = (lastWriteD ident byId l k).or (lookupSM acc.m k) := by
  induction l generalizing acc with
  | nil =>
    have hacc : acc = out := Except.ok.inj h
    subst hacc
    cases hm : lookupSM acc.m k <;> simp [lastWriteD, hm, Option.or]
  | cons i rest ih =>
    unfold syncIssuesLoop at h
    cases hstep : syncIssueStep ident byId acc i with
    | error e =>
      rw [hstep] at h
      simp only [bind, Except.bind] at h
      cases h
    | ok acc₁ =>
      rw [hstep] at h
      simp only [bind, Except.bind] at h
      have hwf : ¬(i.sequence_id = none ∨ i.id = none ∨ i.name = none) := by
        intro hmal
        obtain ⟨e, he⟩ := syncIssueStep_error ident byId acc i hmal
        rw [hstep] at he
        cases he
      push_neg at hwf
      obtain ⟨h1, h2, h3⟩ := hwf
      obtain ⟨s, hs⟩ := Option.ne_none_iff_exists'.mp h1
      obtain ⟨a, ha⟩ := Option.ne_none_iff_exists'.mp h2
      obtain ⟨n, hn⟩ := Option.ne_none_iff_exists'.mp h3
      have hdata := syncIssueStep_ok_m ident byId acc acc₁ i s a n hs ha hn hstep
      rw [ih acc₁ h, hdata, lookupSM_upsert, lastWriteD_cons]
      have hmk : mkIssueData byId i (i.id.getD "") (i.name.getD "") =
          mkIssueData byId i a n := by rw [ha, hn]; rfl
      rw [hmk]
      by_cases hk : k = entryKeyD ident i
      · rw [if_pos hk, if_pos hk.symm]
        cases lastWriteD ident byId rest k <;> simp [Option.or]
      · rw [if_neg hk, if_neg (fun hh => hk hh.symm)]
        cases lastWriteD ident byId rest k <;>
          cases hm : lookupSM acc.m k <;> simp [Option.or]

theorem syncIssuesLoop_ok_wf (ident : String)
    (byId : List (String × SnapState)) (l : List SnapIssue) (acc out : IssAcc)
    (h : syncIssuesLoop ident byId l acc = .ok out) :
    ∀ i ∈ l, ¬(i.sequence_id = none ∨ i.id = none ∨ i.name = none) := by
  induction l generalizing acc with
  | nil => intro i hi; cases hi
  | cons j rest ih =>
    unfold syncIssuesLoop at h
    cases hstep : syncIssueStep ident byId acc j with
    | error e =>
      rw [hstep] at h
      simp only [bind, Except.bind] at h
      cases h
    | ok acc₁ =>
      rw [hstep] at h
      simp only [bind, Except.bind] at h
      intro i hi
      rcases List.mem_cons.mp hi with rfl | hi'
      · intro hmal
        obtain ⟨e, he⟩ := syncIssueStep_error ident byId acc i hmal
        rw [hstep] at he
        cases he
      · exact ih acc₁ h i hi'

theorem syncIssuesLoop_wf_ok (ident : String)
    (byId : List (String × SnapState)) (l : List SnapIssue)
    (hwf : ∀ i ∈ l, ¬(i.sequence_id = none ∨ i.id = none ∨ i.name = none)) :
    ∀ acc, ∃ out, syncIssuesLoop ident byId l acc = .ok out := by
  induction l with
  | nil => intro acc; exact ⟨acc, rfl⟩
  | cons j rest ih =>
    intro acc
    obtain ⟨acc₁, hstep⟩ := syncIssueStep_ok_of_wf ident byId acc j
      (hwf j (List.mem_cons_self j rest))
    obtain ⟨out, hout⟩ := ih (fun i hi => hwf i (List.mem_cons_of_mem j hi)) acc₁
    refine ⟨out, ?_⟩
    unfold syncIssuesLoop
    rw [hstep]
    exact hout

theorem sync_cache_eq_of_loop (S : Snapshot) (t : String) (c : Cache)
    (acc : IssAcc)
    (h : syncIssuesLoop (identifierString (syncProjPart S c)) (syncById S)
      (S.issues.getD []) ⟨c.issues, [], []⟩ = .ok acc) :
    sync_cache S t c = .ok
      (⟨syncProjPart S c, syncStatesPart S c, acc.m, c.linked, some t⟩,
       ⟨acc.m.length, (syncStatesPart S c).length, acc.news, acc.upds⟩) := by
  unfold sync_cache
  dsimp only
  rw [h]

theorem sync_cache_ok_parts (S : Snapshot) (t : String) (c : Cache)
    (p : Cache × SyncResult) (h : sync_cache S t c = .ok p) :
    ∃ acc, syncIssuesLoop (identifierString (syncProjPart S c)) (syncById S)
        (S.issues.getD []) ⟨c.issues, [], []⟩ = .ok acc ∧
      p.1 = ⟨syncProjPart S c, syncStatesPart S c, acc.m, c.linked, some t⟩ ∧
      p.2 = ⟨acc.m.length, (syncStatesPart S c).length, acc.news, acc.upds⟩ := by
  unfold sync_cache at h
  dsimp only at h
  cases hloop : syncIssuesLoop (identifierString (syncProjPart S c))
      (syncById S) (S.issues.getD []) ⟨c.issues, [], []⟩ with
  | error e => rw [hloop] at h; cases h
  | ok acc =>
    rw [hloop] at h
    have h2 := Except.ok.inj h
    exact ⟨acc, rfl, by rw [← h2], by rw [← h2]⟩

theorem syncProjPart_idem (S : Snapshot) (c c₁ : Cache)
    (h : c₁.project = syncProjPart S c) :
    syncProjPart S c₁ = syncProjPart S c := by
  unfold syncProjPart at h ⊢
  cases hP : S.project with
  | none => rw [hP] at h; exact h
  | some proj =>
    rw [hP] at h
    dsimp only at h ⊢
    rw [h]
    unfold updateProject
    cases hw : proj.workspace with
    | some v => rfl
    | none => rfl

theorem syncStates_idem_lookup (l : List SnapState)
    (m : List (String × String)) (k : String) :
    lookupSM (syncStates l (syncStates l m)) k =
      lookupSM (syncStates l m) k := by
  simp only [syncStates_lookup]
  cases lastSpecialId l k <;> cases lookupSM m k <;>
    cases firstCanonId l k <;> simp [Option.or]

/-- C3: sync idempotence.  If `sync(S)` succeeds on a cache, running
`sync(S)` again on the result succeeds too, and leaves the project, states,
issues, and linked collections identical (the two dict-valued collections
compared as mappings, i.e. pointwise — Python dict equality); only
`lastSync` may differ between the two runs. -/
theorem C3_sync_idempotent (S : Snapshot) (c : Cache) (t1 t2 : String)
    (c1 : Cache) (r1 : SyncResult) (h1 : sync_cache S t1 c = .ok (c1, r1)) :
    ∃ c2 r2, sync_cache S t2 c1 = .ok (c2, r2) ∧
      c2.project = c1.project ∧
      (∀ k, lookupSM c2.states k = lookupSM c1.states k) ∧
      (∀ k, lookupSM c2.issues k = lookupSM c1.issues k) ∧
      c2.linked = c1.linked := by
  obtain ⟨acc1, hloop1, hc1, hr1⟩ := sync_cache_ok_parts S t1 c (c1, r1) h1
  have hc1' : c1 = ⟨syncProjPart S c, syncStatesPart S c, acc1.m,
      c.linked, some t1⟩ := hc1
  have hwf := syncIssuesLoop_ok_wf _ _ _ _ _ hloop1
  have hproj : syncProjPart S c1 = syncProjPart S c :=
    syncProjPart_idem S c c1 (by rw [hc1'])
  obtain ⟨acc2, hloop2⟩ := syncIssuesLoop_wf_ok
    (identifierString (syncProjPart S c1)) (syncById S) (S.issues.getD [])
    hwf ⟨c1.issues, [], []⟩
  refine ⟨⟨syncProjPart S c1, syncStatesPart S c1, acc2.m, c1.linked, some t2⟩,
    ⟨acc2.m.length, (syncStatesPart S c1).length, acc2.news, acc2.upds⟩,
    sync_cache_eq_of_loop S t2 c1 acc2 hloop2, ?_, ?_, ?_, rfl⟩
  · dsimp only
    rw [hproj, hc1']
  · intro k
    dsimp only
    unfold syncStatesPart
    cases hS : S.states with
    | none => rfl
    | some l =>
      have hst : c1.states = syncStates l c.states := by
        rw [hc1']
        dsimp only
        unfold syncStatesPart
        rw [hS]
      rw [hst, syncStates_idem_lookup]
  · intro k
    dsimp only
    rw [syncIssuesLoop_lookup _ _ _ _ _ hloop2 k]
    have hiss : c1.issues = acc1.m := by rw [hc1']
    have hlook1 := syncIssuesLoop_lookup _ _ _ _ _ hloop1 k
    dsimp only at hlook1
    rw [hproj, hiss, hlook1]
    cases lastWriteD (identifierString (syncProjPart S c)) (syncById S)
        (S.issues.getD []) k <;>
      cases lookupSM c.issues k <;> simp [Option.or]

/-- C3 witness: the idempotence theorem applied to a concrete snapshot with
one state and one issue, synced twice from the empty skeleton. -/
theorem C3_witness :
    ∃ c2 r2, sync_cache ⟨none, some [⟨"s1", "Todo", some "unstarted"⟩],
        some [⟨some "u", some 1, some "Nm", StateField.obj (some "s1"),
          PriorityField.absent, some "t0"⟩]⟩ "TB"
        ⟨none, [("pending", "s1")],
         [("PROJ-1", ⟨some "u", some "Nm", some "Todo", some "s1",
           some "none", some "t0"⟩)], [], some "TA"⟩ = .ok (c2, r2) ∧
      c2.project = (⟨none, [("pending", "s1")],
         [("PROJ-1", ⟨some "u", some "Nm", some "Todo", some "s1",
           some "none", some "t0"⟩)], [], some "TA"⟩ : Cache).project ∧
      (∀ k, lookupSM c2.states k =
        lookupSM [("pending", "s1")] k) ∧
      (∀ k, lookupSM c2.issues k =
        lookupSM [("PROJ-1", (⟨some "u", some "Nm", some "Todo", some "s1",
          some "none", some "t0"⟩ : IssueRec))] k) ∧
      c2.linked = [] :=
  C3_sync_idempotent ⟨none, some [⟨"s1", "Todo", some "unstarted"⟩],
      some [⟨some "u", some 1, some "Nm", StateField.obj (some "s1"),
        PriorityField.absent, some "t0"⟩]⟩ emptyCache "TA" "TB"
    ⟨none, [("pending", "s1")],
     [("PROJ-1", ⟨some "u", some "Nm", some "Todo", some "s1",
       some "none", some "t0"⟩)], [], some "TA"⟩
    ⟨1, 1, ["PROJ-1"], []⟩ (by rfl)

theorem syncIssueStep_ok_news (ident : String)
    (byId : List (String × SnapState)) (acc acc₁ : IssAcc) (i : SnapIssue)
    (s : Nat) (a n : String) (hs : i.sequence_id = some s) (ha : i.id = some a)
    (hn : i.name = some n) (hstep : syncIssueStep ident byId acc i = .ok acc₁) :
    acc₁.news = if lookupSM acc.m (entryKeyD ident i) = none
      then acc.news ++ [entryKeyD ident i] else acc.news := by
  rw [syncIssueStep_eq_ok ident byId acc i s a n hs ha hn] at hstep
  cases hl : lookupSM acc.m (entryKeyD ident i) with
  | none =>
    rw [hl] at hstep
    rw [if_pos rfl, ← Except.ok.inj hstep]
  | some old =>
    rw [hl] at hstep
    dsimp only at hstep
    rw [if_neg (by simp)]
    by_cases hu : old.updated_at ≠ (mkIssueData byId i a n).updated_at
    · rw [if_pos hu] at hstep
      rw [← Except.ok.inj hstep]
    · rw [if_neg hu] at hstep
      rw [← Except.ok.inj hstep]

theorem syncIssueStep_ok_upds (ident : String)
    (byId : List (String × SnapState)) (acc acc₁ : IssAcc) (i : SnapIssue)
    (s : Nat) (a n : String) (hs : i.sequence_id = some s) (ha : i.id = some a)
    (hn : i.name = some n) (hstep : syncIssueStep ident byId acc i = .ok acc₁) :
    acc₁.upds = match lookupSM acc.m (entryKeyD ident i) with
      | none => acc.upds
      | some old =>
        if old.updated_at ≠ (mkIssueData byId i a n).updated_at
        then acc.upds ++ [entryKeyD ident i] else acc.upds := by
  rw [syncIssueStep_eq_ok ident byId acc i s a n hs ha hn] at hstep
  cases hl : lookupSM acc.m (entryKeyD ident i) with
  | none =>
    rw [hl] at hstep
    rw [← Except.ok.inj hstep]
  | some old =>
    rw [hl] at hstep
    dsimp only at hstep ⊢
    by_cases hu : old.updated_at ≠ (mkIssueData byId i a n).updated_at
    · rw [if_pos hu] at hstep
      rw [if_pos hu, ← Except.ok.inj hstep]
    · rw [if_neg hu] at hstep
      rw [if_neg hu, ← Except.ok.inj hstep]

theorem syncIssuesLoop_frame (ident : String)
    (byId : List (String × SnapState)) (k : String) (l : List SnapIssue)
    (acc out : IssAcc) (h : syncIssuesLoop ident byId l acc = .ok out)
    (hk : k ∉ l.map (entryKeyD ident)) :
    (k ∈ out.news ↔ k ∈ acc.news) ∧ (k ∈ out.upds ↔ k ∈ acc.upds) ∧
      lookupSM out.m k = lookupSM acc.m k := by
  induction l generalizing acc with
  | nil =>
    have hacc : acc = out := Except.ok.inj h
    subst hacc
    exact ⟨Iff.rfl, Iff.rfl, rfl⟩
  | cons j rest ih =>
    unfold syncIssuesLoop at h
    cases hstep : syncIssueStep ident byId acc j with
    | error e =>
      rw [hstep] at h
      simp only [bind, Except.bind] at h
      cases h
    | ok acc₁ =>
      rw [hstep] at h
      simp only [bind, Except.bind] at h
      have hwf : ¬(j.sequence_id = none ∨ j.id = none ∨ j.name = none) := by
        intro hmal
        obtain ⟨e, he⟩ := syncIssueStep_error ident byId acc j hmal
        rw [hstep] at he
        cases he
      push_neg at hwf
      obtain ⟨s, hs⟩ := Option.ne_none_iff_exists'.mp hwf.1
      obtain ⟨a, ha⟩ := Option.ne_none_iff_exists'.mp hwf.2.1
      obtain ⟨n, hn⟩ := Option.ne_none_iff_exists'.mp hwf.2.2
      rw [List.map_cons, List.mem_cons, not_or] at hk
      obtain ⟨hkj, hkrest⟩ := hk
      have hkj' : k ≠ entryKeyD ident j := hkj
      obtain ⟨ihn, ihu, ihm⟩ := ih acc₁ h hkrest
      have hmm := syncIssueStep_ok_m ident byId acc acc₁ j s a n hs ha hn hstep
      have hnn := syncIssueStep_ok_news ident byId acc acc₁ j s a n hs ha hn hstep
      have huu := syncIssueStep_ok_upds ident byId acc acc₁ j s a n hs ha hn hstep
      refine ⟨?_, ?_, ?_⟩
      · rw [ihn, hnn]
        by_cases hl : lookupSM acc.m (entryKeyD ident j) = none
        · rw [if_pos hl]
          simp [hkj']
        · rw [if_neg hl]
      · rw [ihu, huu]
        cases hl : lookupSM acc.m (entryKeyD ident j) with
        | none => rfl
        | some old =>
          dsimp only
          by_cases hu : old.updated_at ≠ (mkIssueData byId j a n).updated_at
          · rw [if_pos hu]
            simp [hkj']
          · rw [if_neg hu]
      · rw [ihm, hmm]
        exact lookupSM_upsert_ne acc.m (entryKeyD ident j) k
          (mkIssueData byId j a n) hkj'

theorem syncIssuesLoop_classify (ident : String)
    (byId : List (String × SnapState)) (l : List SnapIssue) (acc out : IssAcc)
    (h : syncIssuesLoop ident byId l acc = .ok out)
    (hnd : (l.map (entryKeyD ident)).Nodup) :
    ∀ i ∈ l, entryKeyD ident i ∉ acc.news → entryKeyD ident i ∉ acc.upds →
      ((entryKeyD ident i ∈ out.news ↔
         lookupSM acc.m (entryKeyD ident i) = none) ∧
       (entryKeyD ident i ∈ out.upds ↔
         ∃ old, lookupSM acc.m (entryKeyD ident i) = some old ∧
           old.updated_at ≠ i.updated_at) ∧
       lookupSM out.m (entryKeyD ident i) =
         some (mkIssueData byId i (i.id.getD "") (i.name.getD ""))) := by
  induction l generalizing acc with
  | nil => intro i hi; cases hi
  | cons j rest ih =>
    intro i hi hin hiu
    unfold syncIssuesLoop at h
    cases hstep : syncIssueStep ident byId acc j with
    | error e =>
      rw [hstep] at h
      simp only [bind, Except.bind] at h
      cases h
    | ok acc₁ =>
      rw [hstep] at h
      simp only [bind, Except.bind] at h
      have hwfj : ¬(j.sequence_id = none ∨ j.id = none ∨ j.name = none) := by
        intro hmal
        obtain ⟨e, he⟩ := syncIssueStep_error ident byId acc j hmal
        rw [hstep] at he
        cases he
      push_neg at hwfj
      obtain ⟨s, hs⟩ := Option.ne_none_iff_exists'.mp hwfj.1
      obtain ⟨a, ha⟩ := Option.ne_none_iff_exists'.mp hwfj.2.1
      obtain ⟨n, hn⟩ := Option.ne_none_iff_exists'.mp hwfj.2.2
      have hmm := syncIssueStep_ok_m ident byId acc acc₁ j s a n hs ha hn hstep
      have hnn := syncIssueStep_ok_news ident byId acc acc₁ j s a n hs ha hn hstep
      have huu := syncIssueStep_ok_upds ident byId acc acc₁ j s a n hs ha hn hstep
      rw [List.map_cons, List.nodup_cons] at hnd
      rcases List.mem_cons.mp hi with rfl | hird
      · obtain ⟨fn, fu, fm⟩ := syncIssuesLoop_frame ident byId
          (entryKeyD ident i) rest acc₁ out h hnd.1
        refine ⟨?_, ?_, ?_⟩
        · rw [fn, hnn]
          by_cases hl : lookupSM acc.m (entryKeyD ident i) = none
          · rw [if_pos hl]
            simp [hl]
          · rw [if_neg hl]
            constructor
            · intro hmem
              exact absurd hmem hin
            · intro hc
              exact absurd hc hl
        · rw [fu, huu]
          cases hl : lookupSM acc.m (entryKeyD ident i) with
          | none =>
            constructor
            · intro hmem
              exact absurd hmem hiu
            · rintro ⟨old, hold, -⟩
              cases hold
          | some old =>
            dsimp only
            by_cases hu : old.updated_at ≠ (mkIssueData byId i a n).updated_at
            · rw [if_pos hu]
              constructor
              · intro _
                exact ⟨old, rfl, hu⟩
              · intro _
                simp
            · rw [if_neg hu]
              constructor
              · intro hmem
                exact absurd hmem hiu
              · rintro ⟨old', hold', hne⟩
                have h4 : old = old' := Option.some.inj hold'
                subst h4
                exact absurd hne hu
        · rw [fm, hmm, lookupSM_upsert_self, ha, hn]
          rfl
      · have hkne : entryKeyD ident i ≠ entryKeyD ident j := by
          intro he
          exact hnd.1 (he ▸ List.mem_map_of_mem (entryKeyD ident) hird)
        have hn1 : entryKeyD ident i ∉ acc₁.news := by
          rw [hnn]
          by_cases hl : lookupSM acc.m (entryKeyD ident j) = none
          · rw [if_pos hl]
            simp only [List.mem_append, List.mem_singleton]
            rintro (hc | hc)
            · exact hin hc
            · exact hkne hc
          · rw [if_neg hl]
            exact hin
        have hu1 : entryKeyD ident i ∉ acc₁.upds := by
          rw [huu]
          cases hl : lookupSM acc.m (entryKeyD ident j) with
          | none => exact hiu
          | some old =>
            dsimp only
            by_cases hu : old.updated_at ≠ (mkIssueData byId j a n).updated_at
            · rw [if_pos hu]
              simp only [List.mem_append, List.mem_singleton]
              rintro (hc | hc)
              · exact hiu hc
              · exact hkne hc
            · rw [if_neg hu]
              exact hiu
        obtain ⟨cn, cu, cm⟩ := ih acc₁ h hnd.2 i hird hn1 hu1
        have hlk : lookupSM acc₁.m (entryKeyD ident i) =
            lookupSM acc.m (entryKeyD ident i) := by
          rw [hmm]
          exact lookupSM_upsert_ne acc.m (entryKeyD ident j)
            (entryKeyD ident i) (mkIssueData byId j a n) hkne
        rw [hlk] at cn cu
        exact ⟨cn, cu, cm⟩

/-- C7 counterexample: a snapshot whose two issue entries share the same
sequence number.  The derived key "PROJ-1" is reported both as new and as
updated although it was absent from the cache before this sync — the
classification runs against the evolving cache, not the pre-sync one, so
"reported as updated exactly when it was present with a different
updated_at" fails at this input. -/
theorem C7_counterexample :
    sync_cache ⟨none, none, some [⟨some "a", some 1, some "n",
        StateField.scalar none, PriorityField.absent, some "t1"⟩,
      ⟨some "a", some 1, some "n", StateField.scalar none,
        PriorityField.absent, some "t2"⟩]⟩ "T8" emptyCache =
      Except.ok (⟨none, [], [("PROJ-1", ⟨some "a", some "n", some "Unknown",
          none, some "none", some "t2"⟩)], [], some "T8"⟩,
        ⟨1, 0, ["PROJ-1"], ["PROJ-1"]⟩) ∧
    lookupSM emptyCache.issues "PROJ-1" = none := ⟨rfl, rfl⟩

/-- C7 (amended): per-issue sync postcondition for snapshots whose derived
keys are pairwise distinct.  Each entry's stored key is
`identifier ++ "-" ++ sequence` using the just-updated project identifier
(`"PROJ"` when the project dict is empty); the key is in the `new` list
exactly when it was absent from the cache before this sync, in the
`updated` list exactly when it was present with a different `updated_at`
(so identical timestamps with different field values are never reported),
and the record is unconditionally upserted in all cases. -/
theorem C7_issue_sync_postcondition (S : Snapshot) (t : String)
    (c c' : Cache) (r : SyncResult) (h : sync_cache S t c = .ok (c', r))
    (l : List SnapIssue) (hl : S.issues = some l)
    (hnd : (l.map (entryKeyD (identifierString c'.project))).Nodup) :
    ∀ i ∈ l, ∀ s a n, i.sequence_id = some s → i.id = some a →
      i.name = some n →
      ((entryKeyD (identifierString c'.project) i ∈ r.newKeys ↔
         lookupSM c.issues (entryKeyD (identifierString c'.project) i) = none) ∧
       (entryKeyD (identifierString c'.project) i ∈ r.updatedKeys ↔
         ∃ old, lookupSM c.issues (entryKeyD (identifierString c'.project) i) =
             some old ∧ old.updated_at ≠ i.updated_at) ∧
       lookupSM c'.issues (entryKeyD (identifierString c'.project) i) =
         some (mkIssueData (syncById S) i a n)) := by
  obtain ⟨acc, hloop, hc', hr⟩ := sync_cache_ok_parts S t c (c', r) h
  have hc'' : c' = ⟨syncProjPart S c, syncStatesPart S c, acc.m,
      c.linked, some t⟩ := hc'
  have hr' : r = ⟨acc.m.length, (syncStatesPart S c).length,
      acc.news, acc.upds⟩ := hr
  have hident : identifierString c'.project =
      identifierString (syncProjPart S c) := by rw [hc'']
  intro i hi s a n hs ha hn
  rw [hident] at hnd ⊢
  have hloop' : syncIssuesLoop (identifierString (syncProjPart S c))
      (syncById S) l ⟨c.issues, [], []⟩ = .ok acc := by
    rw [hl] at hloop
    exact hloop
  obtain ⟨cn, cu, cm⟩ := syncIssuesLoop_classify
    (identifierString (syncProjPart S c)) (syncById S) l ⟨c.issues, [], []⟩
    acc hloop' hnd i hi (by simp) (by simp)
  refine ⟨?_, ?_, ?_⟩
  · rw [hr']
    exact cn
  · rw [hr']
    exact cu
  · rw [hc'']
    dsimp only
    rw [cm, ha, hn]
    rfl

/-- C7 witness: the amended theorem applied to a one-entry snapshot synced
onto a cache already holding "PROJ-5" with an older timestamp — the key is
classified as updated, not new, and the record is overwritten. -/
theorem C7_witness :
    ((entryKeyD (identifierString c7wNew.project) c7wIssue ∈ c7wRes.newKeys ↔
       lookupSM c7wOld.issues
         (entryKeyD (identifierString c7wNew.project) c7wIssue) = none) ∧
     (entryKeyD (identifierString c7wNew.project) c7wIssue ∈
         c7wRes.updatedKeys ↔
       ∃ old, lookupSM c7wOld.issues
           (entryKeyD (identifierString c7wNew.project) c7wIssue) =
             some old ∧ old.updated_at ≠ c7wIssue.updated_at) ∧
     lookupSM c7wNew.issues
         (entryKeyD (identifierString c7wNew.project) c7wIssue) =
       some (mkIssueData (syncById c7wSnap) c7wIssue "u" "N")) :=
  C7_issue_sync_postcondition c7wSnap "T9" c7wOld c7wNew c7wRes (by rfl)
    _ rfl (by decide) c7wIssue (by decide) 5 "u" "N" rfl rfl rfl
